import Mathlib

/-
  Verification development for the parse-nyc-address repository.

  The single entry point of the repository is parseNycAddress (dist/parse-nyc-address.js),
  a pure function from an input string to a record with optional fields
  housenumber, street, borough, postcode and marble_hill.  The JavaScript
  implementation is embedded shallowly below:

  * the regular expressions used by the tokenizer and the borough tables are
    represented by a small pattern AST (Pat) together with a backtracking
    matcher (matchP) that returns the list of possible outcomes in the order
    the JavaScript engine would try them (first result = the match chosen);
  * the string clean-up, the token scan, the housenumber counting loop, the
    backwards borough/postcode loop, and the Marble Hill checks are each a
    Lean function mirroring the corresponding step of the source.
-/

set_option maxRecDepth 10000

/-- Apostrophe character, written via its code point. -/
def apos : Char := Char.ofNat 39

/-- Word character in the sense of the JavaScript regex class backslash-w. -/
def isWordChar (c : Char) : Bool := c.isAlpha || c.isDigit || c = '_'

/-- Whitespace in the sense of the JavaScript regex class backslash-s
    (restricted to the common ASCII whitespace characters). -/
def isJsSpace (c : Char) : Bool :=
  c = ' ' || c = '\t' || c = '\n' || c = '\r' || c = Char.ofNat 11 || c = Char.ofNat 12

/-- Character class of the JavaScript regex dot (any char except line terminators). -/
def isJsAny (c : Char) : Bool :=
  !(c = '\n' || c = '\r' || c = Char.ofNat 0x2028 || c = Char.ofNat 0x2029)

/-- Character class for the backslash-S regex class. -/
def isNotSpace (c : Char) : Bool := !(isJsSpace c)

/-- Character class for the regex class [-A-Z]. -/
def isDashAZ (c : Char) : Bool := c = '-' || ('A' ≤ c && c ≤ 'Z')

/-- Pattern AST covering the regex constructs used by the source:
    literal characters, single-character classes, sequencing, optional
    groups, star and plus over a character class, and word boundaries. -/
inductive Pat where
  | eps : Pat
  | ch : Char → Pat
  | cls : (Char → Bool) → Pat
  | seq : Pat → Pat → Pat
  | opt : Pat → Pat
  | starCls : (Char → Bool) → Pat
  | plusCls : (Char → Bool) → Pat
  | wb : Pat

/-- Does a word boundary hold between the previous character and the rest? -/
def boundaryAt (prev : Option Char) (s : List Char) : Bool :=
  (match prev with | some c => isWordChar c | none => false)
    != (match s.head? with | some c => isWordChar c | none => false)

/-- Greedy matching of a starred character class: the outcomes are ordered
    longest first, like a backtracking regex engine would try them.
    Each outcome is the last consumed character together with the rest. -/
def starMatches (f : Char → Bool) (prev : Option Char) (s : List Char) :
    List (Option Char × List Char) :=
  match s with
  | [] => [(prev, [])]
  | a :: rest =>
    if f a then starMatches f (some a) rest ++ [(prev, a :: rest)]
    else [(prev, a :: rest)]

/-- Backtracking matcher: all ways a pattern can match a prefix of the input,
    in the order a JavaScript regex engine tries them.  The first component
    of an outcome is the character just before the remaining input (needed
    for word boundaries), the second the remaining input. -/
def matchP : Pat → Option Char → List Char → List (Option Char × List Char)
  | .eps, prev, s => [(prev, s)]
  | .ch c, _, s =>
    match s with
    | a :: rest => if a = c then [(some a, rest)] else []
    | [] => []
  | .cls f, _, s =>
    match s with
    | a :: rest => if f a then [(some a, rest)] else []
    | [] => []
  | .seq p q, prev, s => (matchP p prev s).flatMap (fun r => matchP q r.1 r.2)
  | .opt p, prev, s => matchP p prev s ++ [(prev, s)]
  | .starCls f, prev, s => starMatches f prev s
  | .plusCls f, _, s =>
    match s with
    | a :: rest => if f a then starMatches f (some a) rest else []
    | [] => []
  | .wb, prev, s => if boundaryAt prev s then [(prev, s)] else []

/-- Sequence a list of patterns. -/
def seqs (l : List Pat) : Pat := l.foldr Pat.seq Pat.eps

/-- Literal string pattern. -/
def strPat (s : String) : Pat := (s.data.map Pat.ch).foldr Pat.seq Pat.eps

/-- Optional literal string (a parenthesised group followed by a question mark). -/
def optStr (s : String) : Pat := Pat.opt (strPat s)

/-- Optional single character (a character followed by a question mark). -/
def optCh (c : Char) : Pat := Pat.opt (Pat.ch c)

/-- Whole-string match against an anchored pattern, as done by
    wholeStringMatchesPattern in the source. -/
def wholeStringMatchesPattern (s : String) (p : Pat) : Bool :=
  (matchP p none s.data).any (fun r => r.2.isEmpty)

/-- The saint names of the source (step 1). -/
def saintNames : List String :=
  ["ADALBERT", "ALBAN", "ANDREW", "ANN", "ANTHONY", "AUSTIN", "CHARLES",
   "CLAIR", "EDWARD", "FELIX", "FRANCIS", "GEORGE", "JAMES", "JOHN", "JOSEPH", "JUDE",
   "JULIAN", "LAWRENCE", "LUKE", "MARK", "MARY", "NICHOLAS", "OUEN", "PATRICK", "PAUL",
   "PETER", "RAYMOND", "STEPHEN", "THERESA"]

/-- Pattern for one saint street: ST, an optional period, a space, the saint
    name, an optional possessive mark and an optional S. -/
def saintPat (x : String) : Pat :=
  seqs [strPat "ST", optCh '.', Pat.ch ' ', strPat x, optCh apos, optCh 'S']

/-- The multi-word borough patterns of the source, listed by borough code.
    Codes 6 and 7 stand for generic New York and for country phrases. -/
def boroRegexes : List (Nat × List Pat) :=
  [ (1, [seqs [strPat "MARBLE", optCh ' ', Pat.ch 'H', optCh 'I', optCh 'L', Pat.ch 'L']]),
    (2, [seqs [strPat "THE", optCh ' ', Pat.ch 'B', optStr "RO", optCh 'N', Pat.ch 'X']]),
    (4, [seqs [strPat "ADDISLEIGH", optCh ' ', Pat.ch 'P', optCh 'A', optCh 'R', Pat.ch 'K'],
         seqs [strPat "BAYSIDE", optCh ' ', Pat.ch 'H', optCh 'I', optCh 'L', Pat.ch 'L', optCh 'S'],
         seqs [strPat "BELL", optCh 'E', optCh ' ', Pat.ch 'H', optCh 'A', strPat "RB", optStr "OR"],
         seqs [strPat "BELL", optCh 'E', strPat "ROSE", strPat " MANOR"],
         seqs [strPat "BREEZY", optCh ' ', Pat.ch 'P', optStr "OI", optCh 'N', Pat.ch 'T'],
         seqs [strPat "BR", optStr "OA", Pat.ch 'D', optCh ' ', strPat "CHAN", optStr "NEL"],
         seqs [strPat "CAMBRIA", optCh ' ', Pat.ch 'H', optStr "EI", optStr "GH", Pat.ch 'T', optCh 'S'],
         seqs [strPat "COLLEGE", optCh ' ', Pat.ch 'P', optStr "OI", optCh 'N', Pat.ch 'T'],
         seqs [Pat.ch 'E', optStr "AST", optCh ' ', strPat "ELMHURST"],
         seqs [Pat.ch 'F', optCh 'A', Pat.ch 'R', optCh ' ', strPat "ROCKAWAY"],
         seqs [Pat.ch 'F', optCh 'O', Pat.ch 'R', optCh 'E', strPat "ST", optCh ' ',
               Pat.ch 'H', optCh 'I', optCh 'L', Pat.ch 'L', optCh 'S'],
         seqs [Pat.ch 'F', optStr "OR", Pat.ch 'T', optCh ' ', strPat "TILDEN"],
         seqs [strPat "FR", optCh 'E', strPat "SH", optCh ' ', Pat.ch 'M', optStr "EA",
               Pat.ch 'D', optCh 'O', strPat "WS"],
         seqs [strPat "HOLLIS", optCh ' ', Pat.ch 'H', optCh 'I', optCh 'L', Pat.ch 'L', optCh 'S'],
         seqs [strPat "HOWARD", optCh ' ', Pat.ch 'B', optStr "EA", strPat "CH"],
         seqs [strPat "JACKSON", optCh ' ', Pat.ch 'H', optStr "EI", optCh 'G', optCh 'H',
               Pat.ch 'T', optCh 'S'],
         seqs [Pat.opt (seqs [strPat "JOHN F", Pat.opt (Pat.cls isJsAny), Pat.ch ' ']),
               strPat "KENNEDY AIRP", optCh 'O', optCh 'R', Pat.ch 'T'],
         seqs [strPat "JFK", optCh ' ', strPat "AIRP", optCh 'O', optCh 'R', Pat.ch 'T'],
         seqs [strPat "KEW", optCh ' ', Pat.ch 'G', optCh 'A', strPat "RD", optCh 'E',
               Pat.ch 'N', optCh 'S',
               Pat.opt (seqs [Pat.ch ' ', Pat.ch 'H', optCh 'I', optCh 'L', Pat.ch 'L', optCh 'S'])],
         seqs [strPat "LITTLE", optCh ' ', Pat.ch 'N', optCh 'E', strPat "CK"],
         seqs [strPat "LA", optCh ' ', strPat "GUARDIA AIRP", optCh 'O', optCh 'R', Pat.ch 'T'],
         seqs [Pat.ch 'L', optStr "ONG", optCh ' ', Pat.ch 'I', optCh 'S', optStr "LAND",
               optCh ' ', strPat "CITY"],
         seqs [strPat "MID", optStr "DLE", optCh ' ', Pat.ch 'V', optCh 'I', Pat.ch 'L',
               optStr "LA", Pat.ch 'G', optCh 'E'],
         seqs [strPat "OAKL", optCh 'A', strPat "ND", optCh ' ', Pat.ch 'G', optCh 'A',
               strPat "RD", optCh 'E', Pat.ch 'N', optCh 'S'],
         seqs [Pat.opt (seqs [Pat.ch 'S', optStr "OUTH", Pat.ch ' ']),
               strPat "OZONE", optCh ' ', Pat.ch 'P', optCh 'A', optCh 'R', Pat.ch 'K'],
         seqs [Pat.ch 'Q', optStr "UEE", strPat "NS", optCh ' ', Pat.ch 'V', optCh 'I',
               Pat.ch 'L', optStr "LA", Pat.ch 'G', optCh 'E'],
         seqs [strPat "REGO", optCh ' ', Pat.ch 'P', optCh 'A', optCh 'R', Pat.ch 'K'],
         seqs [Pat.opt (seqs [Pat.ch 'S', optStr "OUTH", Pat.ch ' ']),
               strPat "RICHMOND", optCh ' ', Pat.ch 'H', optCh 'I', optCh 'L', Pat.ch 'L', optCh 'S'],
         seqs [strPat "ROCHDALE", optCh ' ', Pat.ch 'V', optCh 'I', Pat.ch 'L', optStr "LA",
               Pat.ch 'G', optCh 'E'],
         seqs [strPat "ROCKAWAY", optCh ' ', Pat.ch 'B', optStr "EA", strPat "CH"],
         seqs [strPat "ROCKAWAY", optCh ' ', Pat.ch 'P', optCh 'A', optCh 'R', Pat.ch 'K'],
         seqs [strPat "ROCKAWAY", optCh ' ', Pat.ch 'P', optStr "OI", optCh 'N', Pat.ch 'T'],
         seqs [Pat.ch 'S', optStr "AIN", Pat.ch 'T', optCh ' ', strPat "ALBAN", optCh 'S'],
         seqs [strPat "SPRINGFIELD", optCh ' ', Pat.ch 'G', optCh 'A', strPat "RD", optCh 'E',
               Pat.ch 'N', optCh 'S'],
         seqs [strPat "WAVE", optCh ' ', strPat "CR", optCh 'E', strPat "ST"]]),
    (5, [seqs [strPat "STATEN", optCh ' ', strPat "IS", optCh 'L', optStr "AND"]]),
    (6, [seqs [strPat "NEW", optCh ' ', strPat "YORK", optStr " CITY"],
         seqs [strPat "NY", optCh ' ', strPat "CITY"]]),
    (7, [seqs [strPat "UNITED STATES", strPat " OF AMERICA"]]) ]

/-- The multi-word token patterns of the tokenizer, in source order: the
    saint streets, then the special phrases, then the borough patterns. -/
def multiWordTokens : List Pat :=
  saintNames.map saintPat ++
  [ seqs [strPat "AV", optCh 'E', optStr "NUE", strPat " OF"],
    seqs [Pat.opt (seqs [strPat "BMT", Pat.cls isJsAny, Pat.ch 'Q', Pat.cls isJsAny]),
          strPat "AV", optCh 'E', optStr "NUE", Pat.ch ' ', Pat.cls isWordChar],
    seqs [strPat "FRONT STR", optStr "EET"],
    seqs [Pat.cls isWordChar, strPat " STR", optStr "EET"],
    seqs [strPat "FRONT R", optStr "OA", Pat.ch 'D'],
    seqs [Pat.cls isWordChar, strPat " R", optStr "OA", Pat.ch 'D'],
    seqs [strPat "OF NEW", optCh ' ', strPat "YORK"],
    strPat "OF NY",
    strPat "OF MANHATTAN",
    seqs [strPat "OF THE", optCh ' ', strPat "BRONX"],
    seqs [strPat "OF B", optCh 'R', optStr "OO", strPat "KLYN"],
    seqs [strPat "OF Q", optStr "UEE", strPat "NS"],
    seqs [Pat.ch 'C', optCh 'E', optCh 'N', Pat.ch 'T', optCh 'E', Pat.ch 'R', Pat.ch ' ',
          Pat.ch 'Q', optStr "UEE", strPat "NS"],
    seqs [strPat "OF STATEN", optCh ' ', strPat "IS", optCh 'L', optStr "AND"],
    strPat "OF SI",
    seqs [strPat "PS", Pat.opt (Pat.cls isJsAny), strPat "IS 78 Q"],
    seqs [Pat.ch 'H', optCh 'A', optCh 'R', Pat.ch 'B', optCh 'O', Pat.ch 'R', Pat.ch ' ',
          Pat.ch 'B', optCh 'U', optCh 'I', strPat "LD", optCh 'I', optCh 'N', strPat "G Q"],
    seqs [strPat "AIR TRAIN", Pat.starCls isDashAZ],
    strPat "ED KOCH",
    strPat "UNDER THE" ] ++
  (boroRegexes.map Prod.snd).flatten

/-- All tokenizer alternatives in order: each multi-word pattern wrapped in
    word boundaries, and finally a run of non-space characters. -/
def tokenizerAlts : List Pat :=
  multiWordTokens.map (fun p => Pat.seq Pat.wb (Pat.seq p Pat.wb)) ++
  [Pat.plusCls isNotSpace]

/-- Try the tokenizer alternatives in order at the current position and
    return the outcome of the first pattern that matches (the JavaScript
    regex engine commits to the first alternative that succeeds). -/
def tryAlts : List Pat → Option Char → List Char → Option (Option Char × List Char)
  | [], _, _ => none
  | p :: ps, prev, s =>
    match matchP p prev s with
    | r :: _ => some r
    | [] => tryAlts ps prev s

/-- The global scan of String.match: at every position try the alternatives;
    on a match, emit the consumed characters as a token and continue after
    the match; otherwise advance one character.  All alternatives consume at
    least one character, so the guard in the match branch never fails.  The
    fuel argument only bounds the recursion depth; a fuel of at least the
    length of the input makes it irrelevant. -/
def scanFuel : Nat → Option Char → List Char → List (List Char)
  | 0, _, _ => []
  | _, _, [] => []
  | fuel + 1, prev, a :: rest =>
    match tryAlts tokenizerAlts prev (a :: rest) with
    | some (lastc, rem) =>
      if rem.length < (a :: rest).length then
        ((a :: rest).take ((a :: rest).length - rem.length)) :: scanFuel fuel lastc rem
      else []
    | none => scanFuel fuel (some a) rest

/-- The global scan with sufficient fuel. -/
def scan (prev : Option Char) (s : List Char) : List (List Char) :=
  scanFuel s.length prev s

/-- Character-level implementation of the clean-up replace of the source:
    every match of periods followed by at least one whitespace or comma
    becomes a single space, and a run of periods at the end of the string
    becomes a single space.  The first argument counts periods seen but not
    yet resolved, the second records whether we are inside a separator run
    whose replacement space has already been emitted. -/
def cleanAux : Nat → Bool → List Char → List Char
  | pd, _, [] => if 0 < pd then [' '] else []
  | pd, inSeps, c :: rest =>
    if c = '.' then cleanAux (pd + 1) false rest
    else if isJsSpace c || c = ',' then
      if inSeps then cleanAux 0 true rest
      else ' ' :: cleanAux 0 true rest
    else List.replicate pd '.' ++ c :: cleanAux 0 false rest

/-- The clean-up replace of the source. -/
def cleanChars (s : List Char) : List Char := cleanAux 0 false s

/-- Trim the single spaces left by the clean-up from both ends. -/
def trimSpaces (l : List Char) : List Char :=
  ((l.dropWhile (fun c => c = ' ')).reverse.dropWhile (fun c => c = ' ')).reverse

/-- Step 1 of the source: clean the input, trim it, uppercase it and match
    the tokenizer regex against it, yielding the token list. -/
def tokenize (input : String) : List String :=
  (scan none ((trimSpaces (cleanChars input.data)).map Char.toUpper)).map
    (fun cs => String.mk cs)

/-- Tokens that are valid in housenumbers and never start a street name
    (step 2 of the source). -/
def housenumberTokens : List String :=
  ["GAR", "GARAGE", "REAR", "AA", "AB", "AF", "AS", "BA", "BB",
   "CE", "ED", "SF", "1/2", "1/3", "2/3", "1/4", "3/4", "INT", "INTER", "UNDER",
   "UNDRGRND", "UNDERGROUND", "AIR", "RIGHT", "RIGHTS", "RGHT", "RGHTS", "RGT", "RGTS",
   "E-BLDG", "W-BLDG"]

/-- Tokens that are valid in housenumbers but may also start a street name. -/
def ambiguousTokens : List String := ["A", "B", "C", "D", "FRONT"]

/-- Does the string start with a decimal digit (search of a digit returns 0)? -/
def firstCharIsDigit (s : String) : Bool :=
  match s.data with
  | c :: _ => c.isDigit
  | [] => false

/-- The counting loop of step 2: absorb subsequent tokens while they are
    housenumber tokens, or ambiguous tokens whose successor is itself a
    housenumber or ambiguous token.  A missing successor counts as the
    empty string, like the null-coalescing access of the source. -/
def hnLoopFuel (tokens : List String) : Nat → Nat → Nat
  | 0, c => c
  | fuel + 1, c =>
    if c < tokens.length then
      if housenumberTokens.contains (tokens.getD c "")
          || (ambiguousTokens.contains (tokens.getD c "")
              && (housenumberTokens ++ ambiguousTokens).contains (tokens.getD (c + 1) "")) then
        hnLoopFuel tokens fuel (c + 1)
      else c
    else c

/-- The counting loop with sufficient fuel to reach the end of the tokens. -/
def hnCountLoop (tokens : List String) (c : Nat) : Nat :=
  hnLoopFuel tokens (tokens.length - c) c

/-- Step 2 of the source: number of leading tokens belonging to the housenumber. -/
def housenumberTokenCount (tokens : List String) : Nat :=
  if firstCharIsDigit (tokens.getD 0 "") then hnCountLoop tokens 1 else 0

/-- The single-word borough table of step 3. -/
def simpleBoros : List (String × Nat) :=
  [("MANHATTAN", 1), ("M", 1), ("MA", 1), ("MH", 1), ("MN", 1), ("MAN", 1), ("MANH", 1),
   ("BRONX", 2), ("BX", 2), ("BRX", 2), ("BRON", 2),
   ("BROOKLYN", 3), ("BK", 3), ("BRK", 3), ("BKLYN", 3), ("BRKLYN", 3),
   ("QUEENS", 4), ("Q", 4), ("QU", 4), ("QN", 4), ("QNS", 4), ("ARVERNE", 4),
   ("ASTORIA", 4), ("AUBURNDALE", 4), ("BAYSIDE", 4), ("BEECHHURST", 4),
   ("BRIARWOOD", 4), ("CORONA", 4), ("DOUGLASTON", 4), ("EDGEMERE", 4),
   ("ELMHURST", 4), ("FLUSHING", 4), ("GLENDALE", 4), ("HOLLIS", 4), ("JAMAICA", 4),
   ("LAURELTON", 4), ("LIC", 4), ("MALBA", 4), ("MASPETH", 4), ("NEPONSIT", 4),
   ("RIDGEWOOD", 4), ("ROSEDALE", 4), ("SUNNYSIDE", 4), ("WHITESTONE", 4),
   ("WOODHAVEN", 4), ("WOODSIDE", 4),
   ("SI", 5),
   ("NY", 6), ("NYNY", 6), ("NYC", 6),
   ("US", 7), ("USA", 7)]

/-- The zip-prefix-to-borough table of step 3 (keys are the first three digits). -/
def zipPrefixBoros : List (String × Nat) :=
  [("100", 1), ("101", 1), ("102", 1),
   ("104", 2),
   ("112", 3),
   ("111", 4), ("113", 4), ("114", 4), ("116", 4),
   ("103", 5)]

/-- Execution of the anchored regex of five leading digits: if the token
    begins with five digits, return the first three (the capture group). -/
def zipMatch (t : String) : Option String :=
  match t.data with
  | a :: b :: c :: d :: e :: _ =>
    if a.isDigit && b.isDigit && c.isDigit && d.isDigit && e.isDigit then
      some (String.mk [a, b, c])
    else none
  | _ => none

/-- Lookup in the single-word borough table; unknown tokens give 9. -/
def simpleBoroLookup (t : String) : Nat :=
  match simpleBoros.find? (fun kv => kv.1 == t) with
  | some kv => kv.2
  | none => 9

/-- Lookup in the multi-word borough table, trying the codes in ascending
    key order and whole-string matching each pattern; no match gives 9. -/
def boroRegexLookup (t : String) : Nat :=
  match boroRegexes.find? (fun kv => kv.2.any (fun p => wholeStringMatchesPattern t p)) with
  | some kv => kv.1
  | none => 9

/-- Lookup of a zip prefix; unmapped prefixes give the inconclusive code 7. -/
def zipBoroLookup (pfx : String) : Nat :=
  match zipPrefixBoros.find? (fun kv => kv.1 == pfx) with
  | some kv => kv.2
  | none => 7

/-- The mutable state of the backwards loop of step 3. -/
structure ResolveState where
  tokens : List String
  boro : Nat
  zipBoro : Nat
  foundNy : Bool
  postcode : String
deriving Repr, DecidableEq

/-- The backwards loop of step 3 of the source: while more than one token
    remains beyond the housenumber count, examine the last token; take it as
    a postal code if no postal code was found yet and it starts with five
    digits; otherwise look it up in the borough tables, stopping at an
    unrecognized token (with borough 9), continuing past generic tokens with
    codes 6 and 7, and stopping right after popping a definitive borough. -/
def resolveLoopFuel (hnCount : Nat) : Nat → ResolveState → ResolveState
  | 0, st => st
  | fuel + 1, st =>
    if st.tokens.length - hnCount > 1 then
      let finalToken := st.tokens.getLast?.getD ""
      match (if st.zipBoro = 9 then zipMatch finalToken else none) with
      | some pfx =>
        resolveLoopFuel hnCount fuel
          { tokens := st.tokens.dropLast, boro := st.boro,
            zipBoro := zipBoroLookup pfx,
            foundNy := st.foundNy, postcode := finalToken }
      | none =>
        let boro1 := simpleBoroLookup finalToken
        let boro2 := if boro1 = 9 then boroRegexLookup finalToken else boro1
        if boro2 = 9 then { st with boro := 9 }
        else
          let st2 : ResolveState :=
            { tokens := st.tokens.dropLast, boro := boro2, zipBoro := st.zipBoro,
              foundNy := st.foundNy || boro2 = 6, postcode := st.postcode }
          if boro2 < 6 then st2 else resolveLoopFuel hnCount fuel st2
    else st

/-- The backwards loop with sufficient fuel: every continuing iteration pops
    exactly one token, so a fuel equal to the number of tokens is enough. -/
def resolveLoop (hnCount : Nat) (st : ResolveState) : ResolveState :=
  resolveLoopFuel hnCount st.tokens.length st

/-- The fallback after the loop: an unresolved borough prefers a conclusive
    zip-derived borough, then Manhattan if a generic New York was seen. -/
def resolveBoroFallback (st : ResolveState) : Nat :=
  if st.boro > 5 then
    if st.zipBoro < 6 then st.zipBoro
    else if st.foundNy then 1
    else st.boro
  else st.boro

/-- The literal street types checked by the late ambiguous-token test. -/
def streetTypeTokens : List String := ["ST", "AV", "AVE", "AVENUE"]

/-- The late ambiguous-token resolution of step 4: when a housenumber was
    found, more than one token remains for the street, the first of them is
    ambiguous and the next is not a literal street type, move the ambiguous
    token into the housenumber. -/
def finalHousenumberTokenCount (tokens : List String) (count : Nat) : Nat :=
  if count > 0 then
    if tokens.length - count > 1
        && ambiguousTokens.contains (tokens.getD count "")
        && !(streetTypeTokens.contains (tokens.getD (count + 1) "")) then
      count + 1
    else count
  else count

/-- Core of the Marble Hill Houses regex (flexible spelling of HILL). -/
def mhhCorePat : Pat :=
  seqs [strPat "MARBLE ", Pat.ch 'H', optCh 'I', optCh 'L', Pat.ch 'L', strPat " HOUSES"]

/-- The optional building part of the Marble Hill Houses regex, up to and
    including the space before the building number. -/
def mhhBldgPat : Pat :=
  seqs [strPat " B", optStr "UI", strPat "LD", optCh 'I', optCh 'N', strPat "G "]

/-- Unanchored search of the Marble Hill Houses regex: find the leftmost
    position where the core matches; there, greedily try the optional
    building suffix and return its captured digits when present.  The outer
    option is the search result, the inner option the third capture group. -/
def mhhSearchAux : List Char → Option (Option String)
  | [] => none
  | a :: rest =>
    match (matchP mhhCorePat none (a :: rest)).head? with
    | some r =>
      match (matchP mhhBldgPat r.1 r.2).head? with
      | some r2 =>
        let digits := r2.2.takeWhile Char.isDigit
        if digits.isEmpty then some none else some (some (String.mk digits))
      | none => some none
    | none => mhhSearchAux rest

/-- Search of the Marble Hill Houses regex in the street text. -/
def mhhSearch (street : String) : Option (Option String) := mhhSearchAux street.data

/-- The streets and placenames entirely within Marble Hill (step 4). -/
def marbleHillStreetRegexes : List Pat :=
  [ seqs [strPat "ADRIAN AV", optCh 'E', optStr "NUE"],
    seqs [Pat.ch 'F', optCh 'O', optCh 'R', strPat "T CHARLES PL", optStr "ACE"],
    seqs [strPat "JACOBUS PL", optStr "ACE"],
    seqs [strPat "TERRACE V", optStr "IE", strPat "W AV", optCh 'E', optStr "NUE"],
    seqs [strPat "VAN CORLEAR PL", optStr "ACE"],
    seqs [strPat "METRO NORTH-MARBLE ", Pat.ch 'H', optCh 'I', optCh 'L', Pat.ch 'L'],
    seqs [strPat "BROADWAY BR", optCh 'I', strPat "DG", optCh 'E'],
    seqs [strPat "MARBLE ", Pat.ch 'H', optCh 'I', optCh 'L', Pat.ch 'L',
          strPat " L", optCh 'A', Pat.ch 'N', optCh 'E'],
    seqs [strPat "ATMOSPHERE CHARTER SCH", optStr "OO", optCh 'L'],
    seqs [optStr "THE ", strPat "SHOPS AT MARBLE ", Pat.ch 'H', optCh 'I', optCh 'L', Pat.ch 'L'],
    seqs [strPat "IRT-1-MARBLE ", Pat.ch 'H', optCh 'I', optCh 'L', Pat.ch 'L', strPat "-225 STREET"] ]

/-- The front-truncated West 225th, 227th and 228th Street pattern of step 4. -/
def w225Pat : Pat :=
  seqs [Pat.opt (seqs [Pat.ch 'W', optStr "EST", Pat.ch ' ']),
        strPat "22", Pat.cls (fun c => c = '5' || c = '7' || c = '8'),
        optStr "TH",
        Pat.opt (seqs [strPat " ST", optCh 'R', optStr "EET"])]

/-- parseInt on a token whose first character is a digit: the numeric value
    of the maximal leading run of digits. -/
def leadingInt (s : String) : Nat :=
  (s.data.takeWhile Char.isDigit).foldl (fun n c => n * 10 + (c.toNat - 48)) 0

/-- The building numbers of the Marble Hill Houses that lie in the Bronx. -/
def bronxBuildings : List String := ["4", "5", "6", "11"]

/-- The Marble Hill checks of step 4 of the source, producing the final
    borough and the marble hill flag from the street text, the remaining
    tokens, the final housenumber token count, the resolved borough and the
    postal code.  The empty range in the Broadway test between 5401 and 5321
    reproduces the source verbatim. -/
def marbleHillCheck (streetText : String) (tokens : List String) (count : Nat)
    (boro : Nat) (postcode : String) : Nat × Bool :=
  if (postcode = "" ∨ "10463".data.isPrefixOf postcode.data = true) ∧ boro ∉ [3, 4, 5] then
    let res : Nat × Bool :=
      match mhhSearch streetText with
      | some g3 =>
        match g3 with
        | some d => if d ∈ bronxBuildings then (2, false) else (boro, true)
        | none => (boro, true)
      | none =>
        if marbleHillStreetRegexes.any (fun p => wholeStringMatchesPattern streetText p) then
          (boro, true)
        else if count > 0 ∧ ¬ (tokens.getD 0 "").data.contains '-' = true then
          let housenumberInt := leadingInt (tokens.getD 0 "")
          if (streetText = "BROADWAY"
              ∧ (housenumberInt = 5485
                 ∨ (5170 ≤ housenumberInt ∧ housenumberInt ≤ 5300)
                 ∨ (5301 ≤ housenumberInt ∧ housenumberInt ≤ 5320 ∧ boro < 3)
                 ∨ (5321 ≤ housenumberInt ∧ housenumberInt ≤ 5400)
                 ∨ (5401 ≤ housenumberInt ∧ housenumberInt ≤ 5321 ∧ boro < 3)
                 ∨ (5421 ≤ housenumberInt ∧ housenumberInt ≤ 5480)))
             ∨ (wholeStringMatchesPattern streetText w225Pat = true
                ∧ 40 ≤ housenumberInt ∧ housenumberInt ≤ 176) then
            (boro, true)
          else (boro, false)
        else (boro, false)
    if res.2 then (1, true) else res
  else (boro, false)

/-- Join a token list with single spaces, like the join of the source. -/
def joinSpace : List String → String
  | [] => ""
  | a :: rest => rest.foldl (fun acc t => acc ++ " " ++ t) a

/-- The output record: optional housenumber, street, borough and postcode,
    and the marble hill flag (true exactly when the key would be present). -/
structure ParseOutput where
  housenumber : Option String := none
  street : Option String := none
  borough : Option Nat := none
  postcode : Option String := none
  marble_hill : Bool := false
deriving Repr, DecidableEq

/-- The initial state of the backwards loop of step 3. -/
def initState (tokens : List String) : ResolveState :=
  { tokens := tokens, boro := 9, zipBoro := 9, foundNy := false, postcode := "" }

/-- The whole parser, chaining the four steps of the source. -/
def parseNycAddress (input : String) : ParseOutput :=
  let tokens0 := tokenize input
  let hnCount := housenumberTokenCount tokens0
  let st := resolveLoop hnCount (initState tokens0)
  let boroResolved := resolveBoroFallback st
  let finalCount := finalHousenumberTokenCount st.tokens hnCount
  let housenumberText := joinSpace (st.tokens.take finalCount)
  let streetText := joinSpace (st.tokens.drop finalCount)
  let mh := marbleHillCheck streetText st.tokens finalCount boroResolved st.postcode
  { housenumber := if hnCount > 0 ∧ housenumberText ≠ "" then some housenumberText else none,
    street := if streetText ≠ "" then some streetText else none,
    borough := if mh.1 < 6 then some mh.1 else none,
    postcode := if st.postcode ≠ "" then some st.postcode else none,
    marble_hill := mh.2 }

/-- Addition of optional upper bounds (none meaning unbounded). -/
def optNatAdd : Option Nat → Option Nat → Option Nat
  | some a, some b => some (a + b)
  | _, _ => none

/-- Is a number below an optional upper bound? -/
def leOptNat (n : Nat) : Option Nat → Prop
  | some m => n ≤ m
  | none => True

/-- Strictly-below test against an optional upper bound (false for unbounded). -/
def ltOpt : Option Nat → Nat → Bool
  | some m, n => m < n
  | none, _ => false

/-- Lower bound on the length of any string matching the pattern. -/
def minLenP : Pat → Nat
  | .eps => 0
  | .ch _ => 1
  | .cls _ => 1
  | .seq p q => minLenP p + minLenP q
  | .opt _ => 0
  | .starCls _ => 0
  | .plusCls _ => 1
  | .wb => 0

/-- Upper bound on the length of any string matching the pattern. -/
def maxLenP : Pat → Option Nat
  | .eps => some 0
  | .ch _ => some 1
  | .cls _ => some 1
  | .seq p q => optNatAdd (maxLenP p) (maxLenP q)
  | .opt p => maxLenP p
  | .starCls _ => none
  | .plusCls _ => none
  | .wb => some 0

/-- Lower bound on the occurrences of characters from the given class (an
    explicit character list) in any string matching the pattern. -/
def minCntL (cs : List Char) : Pat → Nat
  | .eps => 0
  | .ch a => if cs.contains a then 1 else 0
  | .cls _ => 0
  | .seq p q => minCntL cs p + minCntL cs q
  | .opt _ => 0
  | .starCls _ => 0
  | .plusCls _ => 0
  | .wb => 0

/-- Upper bound on the occurrences of characters from the given class in any
    string matching the pattern. -/
def maxCntL (cs : List Char) : Pat → Option Nat
  | .eps => some 0
  | .ch a => some (if cs.contains a then 1 else 0)
  | .cls f => if cs.all (fun c => !(f c)) then some 0 else some 1
  | .seq p q => optNatAdd (maxCntL cs p) (maxCntL cs q)
  | .opt p => maxCntL cs p
  | .starCls f => if cs.all (fun c => !(f c)) then some 0 else none
  | .plusCls f => if cs.all (fun c => !(f c)) then some 0 else none
  | .wb => some 0

/-- Number of occurrences of characters of the class in a string. -/
def cntL (cs : List Char) (u : List Char) : Nat := u.countP (fun x => cs.contains x)

/-- Character classes used to separate pattern languages by occurrence counts:
    each printable character alone, and a few combined classes. -/
def featureClasses : List (List Char) :=
  [[' '], ['A'], ['B'], ['C'], ['D'], ['E'], ['F'], ['G'], ['H'], ['I'], ['J'], ['K'],
   ['L'], ['M'], ['N'], ['O'], ['P'], ['Q'], ['R'], ['S'], ['T'], ['U'], ['V'], ['W'],
   ['X'], ['Y'], ['Z'], ['-'], ['.'],
   ['0'], ['1'], ['2'], ['3'], ['4'], ['5'], ['6'], ['7'], ['8'], ['9'],
   ['A', 'D', 'R', 'I'], ['R', 'C', 'W'], ['R', 'C', 'L']]

/-- Can one class bound separate the languages of the two patterns? -/
def sepByClass (p q : Pat) (cs : List Char) : Bool :=
  ltOpt (maxCntL cs p) (minCntL cs q) || ltOpt (maxCntL cs q) (minCntL cs p)

/-- Are the languages of the two patterns disjoint by a length or count bound? -/
def patsSeparated (p q : Pat) : Bool :=
  ltOpt (maxLenP p) (minLenP q) || ltOpt (maxLenP q) (minLenP p)
    || featureClasses.any (sepByClass p q)

/-- Can no string matching the first pattern contain a substring matching the
    second (by a length bound or a one-sided count bound)? -/
def cannotContain (p q : Pat) : Bool :=
  ltOpt (maxLenP p) (minLenP q)
    || featureClasses.any (fun cs => ltOpt (maxCntL cs p) (minCntL cs q))

/-- Does the token begin with five digits (the zip test of the resolver)? -/
def startsFiveDigits (t : String) : Bool := (zipMatch t).isSome

/-- Is the token a definitive single- or multi-word borough indicator (code
    below 6) for the backwards resolver? -/
def definitiveBoroToken (t : String) : Prop :=
  simpleBoroLookup t < 6 ∨ boroRegexLookup t < 6

instance (t : String) : Decidable (definitiveBoroToken t) :=
  inferInstanceAs (Decidable (simpleBoroLookup t < 6 ∨ boroRegexLookup t < 6))

/-- Concatenation of the housenumber and street fields of an output record
    with a single space, both taken as empty when absent. -/
def concatHnStreet (o : ParseOutput) : String :=
  (o.housenumber.getD "") ++ " " ++ (o.street.getD "")

/-- The token list left over after the borough resolver of step 3, as
    computed inside the parser for the given input. -/
def resolvedTokens (input : String) : List String :=
  (resolveLoop (housenumberTokenCount (tokenize input))
    (initState (tokenize input))).tokens

/-- The resolver state after step 3 for the given input. -/
def resolvedState (input : String) : ResolveState :=
  resolveLoop (housenumberTokenCount (tokenize input)) (initState (tokenize input))

/-- The borough after the fallback of step 3, before the Marble Hill checks. -/
def parseBoro (input : String) : Nat :=
  resolveBoroFallback (resolvedState input)

/-- The postal code string recorded by the resolver (empty when none). -/
def postcodeOf (input : String) : String := (resolvedState input).postcode

/-- The found-New-York flag of the resolver. -/
def foundNyOf (input : String) : Bool := (resolvedState input).foundNy

/-- The housenumber token count after the late ambiguous-token resolution. -/
def finalCountOf (input : String) : Nat :=
  finalHousenumberTokenCount (resolvedTokens input)
    (housenumberTokenCount (tokenize input))

/-- The housenumber text assembled by step 4. -/
def hnTextOf (input : String) : String :=
  joinSpace ((resolvedTokens input).take (finalCountOf input))

/-- The street text assembled by step 4. -/
def streetTextOf (input : String) : String :=
  joinSpace ((resolvedTokens input).drop (finalCountOf input))

/-- The borough and marble hill flag produced by the Marble Hill checks. -/
def mhOf (input : String) : Nat × Bool :=
  marbleHillCheck (streetTextOf input) (resolvedTokens input) (finalCountOf input)
    (parseBoro input) (postcodeOf input)

/-- Qualification of the token at position 1+i as a housenumber continuation:
    it is a housenumber token, or an ambiguous token followed by a
    housenumber or ambiguous token. -/
def hnQual (tokens : List String) (i : Nat) : Prop :=
  (housenumberTokens.contains (tokens.getD (1 + i) "")
      || (ambiguousTokens.contains (tokens.getD (1 + i) "")
          && (housenumberTokens ++ ambiguousTokens).contains (tokens.getD (2 + i) ""))) = true

/-! Fuel congruence and unfolding equations for the loop functions. -/

theorem scanFuel_congr : ∀ (f1 f2 : Nat) (prev : Option Char) (s : List Char),
    s.length ≤ f1 → s.length ≤ f2 → scanFuel f1 prev s = scanFuel f2 prev s := by
  intro f1
  induction f1 with
  | zero =>
    intro f2 prev s h1 _
    have : s = [] := List.length_eq_zero.mp (Nat.le_zero.mp h1)
    subst this
    cases f2 <;> rfl
  | succ f ih =>
    intro f2 prev s h1 h2
    cases s with
    | nil => cases f2 <;> rfl
    | cons a rest =>
      cases f2 with
      | zero => simp at h2
      | succ m =>
        simp only [scanFuel]
        cases htry : tryAlts tokenizerAlts prev (a :: rest) with
        | none =>
          refine ih m (some a) rest ?_ ?_
          · simp only [List.length_cons] at h1
            omega
          · simp only [List.length_cons] at h2
            omega
        | some r =>
          obtain ⟨lastc, rem⟩ := r
          by_cases hlt : rem.length < (a :: rest).length
          · simp only [if_pos hlt]
            have hr1 : rem.length ≤ f := by
              simp only [List.length_cons] at hlt h1
              omega
            have hr2 : rem.length ≤ m := by
              simp only [List.length_cons] at hlt h2
              omega
            rw [ih m lastc rem hr1 hr2]
          · simp only [if_neg hlt]

theorem scan_eq (prev : Option Char) (s : List Char) :
    scan prev s =
      match s with
      | [] => []
      | a :: rest =>
        match tryAlts tokenizerAlts prev (a :: rest) with
        | some (lastc, rem) =>
          if rem.length < (a :: rest).length then
            ((a :: rest).take ((a :: rest).length - rem.length)) :: scan lastc rem
          else []
        | none => scan (some a) rest := by
  cases s with
  | nil => rfl
  | cons a rest =>
    show scanFuel (rest.length + 1) prev (a :: rest) = _
    simp only [scanFuel]
    cases htry : tryAlts tokenizerAlts prev (a :: rest) with
    | none =>
      exact scanFuel_congr rest.length rest.length (some a) rest (Nat.le_refl _) (Nat.le_refl _)
    | some r =>
      obtain ⟨lastc, rem⟩ := r
      by_cases hlt : rem.length < (a :: rest).length
      · simp only [if_pos hlt]
        have hr : rem.length ≤ rest.length := by
          simp only [List.length_cons] at hlt
          omega
        rw [scanFuel_congr rest.length rem.length lastc rem hr (Nat.le_refl _)]
        rfl
      · simp only [if_neg hlt]

theorem hnCountLoop_eq (tokens : List String) (c : Nat) :
    hnCountLoop tokens c =
      if c < tokens.length then
        if housenumberTokens.contains (tokens.getD c "")
            || (ambiguousTokens.contains (tokens.getD c "")
                && (housenumberTokens ++ ambiguousTokens).contains (tokens.getD (c + 1) "")) then
          hnCountLoop tokens (c + 1)
        else c
      else c := by
  show hnLoopFuel tokens (tokens.length - c) c = _
  cases hf : tokens.length - c with
  | zero =>
    have : ¬ c < tokens.length := by omega
    simp only [hnLoopFuel, if_neg this]
  | succ n =>
    have hc : c < tokens.length := by omega
    have hn : n = tokens.length - (c + 1) := by omega
    simp only [hnLoopFuel, if_pos hc, hn]
    rfl

theorem resolveLoopFuel_congr : ∀ (f1 f2 c : Nat) (st : ResolveState),
    st.tokens.length ≤ f1 → st.tokens.length ≤ f2 →
    resolveLoopFuel c f1 st = resolveLoopFuel c f2 st := by
  intro f1
  induction f1 with
  | zero =>
    intro f2 c st h1 _
    have hl : st.tokens.length = 0 := Nat.le_zero.mp h1
    cases f2 with
    | zero => rfl
    | succ m =>
      show _ = if st.tokens.length - c > 1 then _ else st
      rw [if_neg (by omega)]
      rfl
  | succ f ih =>
    intro f2 c st h1 h2
    cases f2 with
    | zero =>
      have hl : st.tokens.length = 0 := Nat.le_zero.mp h2
      show (if st.tokens.length - c > 1 then _ else st) = _
      rw [if_neg (by omega)]
      rfl
    | succ m =>
      simp only [resolveLoopFuel]
      by_cases hcond : st.tokens.length - c > 1
      · rw [if_pos hcond, if_pos hcond]
        have hdl : st.tokens.dropLast.length ≤ f ∧ st.tokens.dropLast.length ≤ m := by
          simp only [List.length_dropLast]
          omega
        cases hz : (if st.zipBoro = 9 then zipMatch (st.tokens.getLast?.getD "") else none) with
        | some pfx => exact ih m c _ hdl.1 hdl.2
        | none =>
          simp only []
          by_cases h9 : (if simpleBoroLookup (st.tokens.getLast?.getD "") = 9
              then boroRegexLookup (st.tokens.getLast?.getD "")
              else simpleBoroLookup (st.tokens.getLast?.getD "")) = 9
          · rw [if_pos h9, if_pos h9]
          · rw [if_neg h9, if_neg h9]
            by_cases h6 : (if simpleBoroLookup (st.tokens.getLast?.getD "") = 9
                then boroRegexLookup (st.tokens.getLast?.getD "")
                else simpleBoroLookup (st.tokens.getLast?.getD "")) < 6
            · rw [if_pos h6, if_pos h6]
            · rw [if_neg h6, if_neg h6]
              exact ih m c _ hdl.1 hdl.2
      · rw [if_neg hcond, if_neg hcond]

theorem resolveLoop_eq (c : Nat) (st : ResolveState) :
    resolveLoop c st =
      if st.tokens.length - c > 1 then
        match (if st.zipBoro = 9 then zipMatch (st.tokens.getLast?.getD "") else none) with
        | some pfx =>
          resolveLoop c
            { tokens := st.tokens.dropLast, boro := st.boro,
              zipBoro := zipBoroLookup pfx,
              foundNy := st.foundNy, postcode := st.tokens.getLast?.getD "" }
        | none =>
          if (if simpleBoroLookup (st.tokens.getLast?.getD "") = 9
              then boroRegexLookup (st.tokens.getLast?.getD "")
              else simpleBoroLookup (st.tokens.getLast?.getD "")) = 9 then
            { st with boro := 9 }
          else
            if (if simpleBoroLookup (st.tokens.getLast?.getD "") = 9
                then boroRegexLookup (st.tokens.getLast?.getD "")
                else simpleBoroLookup (st.tokens.getLast?.getD "")) < 6 then
              { tokens := st.tokens.dropLast,
                boro := (if simpleBoroLookup (st.tokens.getLast?.getD "") = 9
                  then boroRegexLookup (st.tokens.getLast?.getD "")
                  else simpleBoroLookup (st.tokens.getLast?.getD "")),
                zipBoro := st.zipBoro,
                foundNy := st.foundNy
                  || (if simpleBoroLookup (st.tokens.getLast?.getD "") = 9
                      then boroRegexLookup (st.tokens.getLast?.getD "")
                      else simpleBoroLookup (st.tokens.getLast?.getD "")) = 6,
                postcode := st.postcode }
            else
              resolveLoop c
                { tokens := st.tokens.dropLast,
                  boro := (if simpleBoroLookup (st.tokens.getLast?.getD "") = 9
                    then boroRegexLookup (st.tokens.getLast?.getD "")
                    else simpleBoroLookup (st.tokens.getLast?.getD "")),
                  zipBoro := st.zipBoro,
                  foundNy := st.foundNy
                    || (if simpleBoroLookup (st.tokens.getLast?.getD "") = 9
                        then boroRegexLookup (st.tokens.getLast?.getD "")
                        else simpleBoroLookup (st.tokens.getLast?.getD "")) = 6,
                  postcode := st.postcode }
      else st := by
  by_cases hcond : st.tokens.length - c > 1
  · rw [if_pos hcond]
    obtain ⟨n, hl⟩ : ∃ n, st.tokens.length = n + 1 := ⟨st.tokens.length - 1, by omega⟩
    have hdl : st.tokens.dropLast.length = n := by
      simp only [List.length_dropLast, hl]
      omega
    show resolveLoopFuel c st.tokens.length st = _
    have hfuel : resolveLoopFuel c st.tokens.length st = resolveLoopFuel c (n + 1) st := by
      rw [hl]
    rw [hfuel]
    simp only [resolveLoopFuel]
    rw [if_pos hcond]
    cases hz : (if st.zipBoro = 9 then zipMatch (st.tokens.getLast?.getD "") else none) with
    | some pfx =>
      show resolveLoopFuel c n _ = resolveLoop c _
      show _ = resolveLoopFuel c st.tokens.dropLast.length _
      rw [hdl]
    | none =>
      simp only []
      by_cases h9 : (if simpleBoroLookup (st.tokens.getLast?.getD "") = 9
          then boroRegexLookup (st.tokens.getLast?.getD "")
          else simpleBoroLookup (st.tokens.getLast?.getD "")) = 9
      · rw [if_pos h9, if_pos h9]
      · rw [if_neg h9, if_neg h9]
        by_cases h6 : (if simpleBoroLookup (st.tokens.getLast?.getD "") = 9
            then boroRegexLookup (st.tokens.getLast?.getD "")
            else simpleBoroLookup (st.tokens.getLast?.getD "")) < 6
        · rw [if_pos h6, if_pos h6]
        · rw [if_neg h6, if_neg h6]
          show resolveLoopFuel c n _ = resolveLoop c _
          show _ = resolveLoopFuel c st.tokens.dropLast.length _
          rw [hdl]
  · rw [if_neg hcond]
    show resolveLoopFuel c st.tokens.length st = st
    rcases hn : st.tokens.length with _ | n
    · rfl
    · simp only [resolveLoopFuel]
      rw [if_neg hcond]

/-! Structural lemmas about the backwards resolver loop. -/

/-! Range facts about the lookup tables. -/

theorem simpleBoroLookup_range (t : String) :
    1 ≤ simpleBoroLookup t ∧ simpleBoroLookup t ≤ 9 := by
  unfold simpleBoroLookup
  cases hf : simpleBoros.find? (fun kv => kv.1 == t) with
  | none => simp only [hf]; omega
  | some kv =>
    simp only [hf]
    have hmem : kv ∈ simpleBoros := List.mem_of_find?_eq_some hf
    have hall : ∀ p ∈ simpleBoros, 1 ≤ p.2 ∧ p.2 ≤ 9 := by decide
    exact hall kv hmem

theorem boroRegexLookup_range (t : String) :
    1 ≤ boroRegexLookup t ∧ boroRegexLookup t ≤ 9 := by
  unfold boroRegexLookup
  cases hf : boroRegexes.find? (fun kv => kv.2.any (fun p => wholeStringMatchesPattern t p)) with
  | none => simp only [hf]; omega
  | some kv =>
    simp only [hf]
    have hmem : kv ∈ boroRegexes := List.mem_of_find?_eq_some hf
    simp only [boroRegexes, List.mem_cons, List.not_mem_nil, or_false] at hmem
    rcases hmem with rfl | rfl | rfl | rfl | rfl | rfl <;> exact ⟨by decide, by decide⟩

theorem zipBoroLookup_range (pfx : String) :
    1 ≤ zipBoroLookup pfx ∧ zipBoroLookup pfx ≠ 9 := by
  unfold zipBoroLookup
  cases hf : zipPrefixBoros.find? (fun kv => kv.1 == pfx) with
  | none => simp only [hf]; omega
  | some kv =>
    simp only [hf]
    have hmem : kv ∈ zipPrefixBoros := List.mem_of_find?_eq_some hf
    have hall : ∀ p ∈ zipPrefixBoros, 1 ≤ p.2 ∧ p.2 ≠ 9 := by decide
    exact hall kv hmem

theorem resolveLoopFuel_length : ∀ (fuel c : Nat) (st : ResolveState),
    min st.tokens.length (c + 1) ≤ (resolveLoopFuel c fuel st).tokens.length := by
  intro fuel
  induction fuel with
  | zero =>
    intro c st
    show min st.tokens.length (c + 1) ≤ st.tokens.length
    omega
  | succ f ihf =>
    intro c st
    simp only [resolveLoopFuel]
    split
    next hcond =>
      split
      next pfx hz =>
        refine le_trans ?_ (ihf c _)
        simp only [List.length_dropLast]
        omega
      next hz =>
        generalize (if simpleBoroLookup (st.tokens.getLast?.getD "") = 9
            then boroRegexLookup (st.tokens.getLast?.getD "")
            else simpleBoroLookup (st.tokens.getLast?.getD "")) = b2
        split
        next h9 => exact (by omega : min st.tokens.length (c + 1) ≤ st.tokens.length)
        next h9 =>
          split
          next h6 =>
            simp only [List.length_dropLast]
            omega
          next h6 =>
            refine le_trans ?_ (ihf c _)
            simp only [List.length_dropLast]
            omega
    next hcond => omega

theorem resolveLoop_length (c : Nat) (st : ResolveState) :
    min st.tokens.length (c + 1) ≤ (resolveLoop c st).tokens.length :=
  resolveLoopFuel_length st.tokens.length c st

theorem resolveLoopFuel_boro_range : ∀ (fuel c : Nat) (st : ResolveState),
    1 ≤ st.boro → 1 ≤ st.zipBoro →
    1 ≤ (resolveLoopFuel c fuel st).boro ∧ 1 ≤ (resolveLoopFuel c fuel st).zipBoro := by
  intro fuel
  induction fuel with
  | zero =>
    intro c st hb hz
    exact ⟨hb, hz⟩
  | succ f ihf =>
    intro c st hb hz
    simp only [resolveLoopFuel]
    split
    next hcond =>
      split
      next pfx hzm => exact ihf c _ hb (zipBoroLookup_range pfx).1
      next hzm =>
        have hb2 : 1 ≤ (if simpleBoroLookup (st.tokens.getLast?.getD "") = 9
            then boroRegexLookup (st.tokens.getLast?.getD "")
            else simpleBoroLookup (st.tokens.getLast?.getD "")) := by
          split
          · exact (boroRegexLookup_range _).1
          · exact (simpleBoroLookup_range _).1
        revert hb2
        generalize (if simpleBoroLookup (st.tokens.getLast?.getD "") = 9
            then boroRegexLookup (st.tokens.getLast?.getD "")
            else simpleBoroLookup (st.tokens.getLast?.getD "")) = b2
        intro hb2
        split
        next h9 => exact ⟨(by omega : (1 : Nat) ≤ 9), hz⟩
        next h9 =>
          split
          next h6 => exact ⟨hb2, hz⟩
          next h6 => exact ihf c _ hb2 hz
    next hcond => exact ⟨hb, hz⟩

theorem resolveLoop_boro_range (c : Nat) (st : ResolveState)
    (hb : 1 ≤ st.boro) (hz : 1 ≤ st.zipBoro) :
    1 ≤ (resolveLoop c st).boro ∧ 1 ≤ (resolveLoop c st).zipBoro :=
  resolveLoopFuel_boro_range st.tokens.length c st hb hz

theorem getLastD_mem (l : List String) (h : l ≠ []) : l.getLast?.getD "" ∈ l := by
  rw [List.getLast?_eq_getLast l h]
  exact List.getLast_mem h

theorem tokens_decomp (l : List String) (h : l ≠ []) :
    l = l.dropLast ++ [l.getLast?.getD ""] := by
  rw [List.getLast?_eq_getLast l h]
  exact (List.dropLast_concat_getLast h).symm

theorem prefix_getD (l1 l2 : List String) (hp : l1 <+: l2) (i : Nat) (hi : i < l1.length) :
    l1.getD i "" = l2.getD i "" := by
  obtain ⟨t, rfl⟩ := hp
  simp only [List.getD_eq_getElem?_getD]
  rw [List.getElem?_append_left hi]

theorem resolveLoopFuel_tokens_prefix : ∀ (fuel c : Nat) (st : ResolveState),
    (resolveLoopFuel c fuel st).tokens <+: st.tokens := by
  intro fuel
  induction fuel with
  | zero => intro c st; exact List.prefix_refl _
  | succ f ihf =>
    intro c st
    simp only [resolveLoopFuel]
    split
    next hcond =>
      split
      next pfx hz => exact (ihf c _).trans (List.dropLast_prefix _)
      next hz =>
        generalize (if simpleBoroLookup (st.tokens.getLast?.getD "") = 9
            then boroRegexLookup (st.tokens.getLast?.getD "")
            else simpleBoroLookup (st.tokens.getLast?.getD "")) = b2
        split
        next h9 => exact List.prefix_refl _
        next h9 =>
          split
          next h6 => exact List.dropLast_prefix _
          next h6 => exact (ihf c _).trans (List.dropLast_prefix _)
    next hcond => exact List.prefix_refl _

theorem resolveLoop_tokens_prefix (c : Nat) (st : ResolveState) :
    (resolveLoop c st).tokens <+: st.tokens :=
  resolveLoopFuel_tokens_prefix st.tokens.length c st

theorem resolveLoopFuel_zip_inv : ∀ (fuel c : Nat) (st : ResolveState),
    (st.postcode = "" ∧ st.zipBoro = 9)
      ∨ (∃ pfx, zipMatch st.postcode = some pfx ∧ st.zipBoro = zipBoroLookup pfx) →
    ((resolveLoopFuel c fuel st).postcode = "" ∧ (resolveLoopFuel c fuel st).zipBoro = 9)
      ∨ (∃ pfx, zipMatch (resolveLoopFuel c fuel st).postcode = some pfx
          ∧ (resolveLoopFuel c fuel st).zipBoro = zipBoroLookup pfx) := by
  intro fuel
  induction fuel with
  | zero => intro c st h; exact h
  | succ f ihf =>
    intro c st h
    simp only [resolveLoopFuel]
    split
    next hcond =>
      split
      next pfx hzm =>
        have h99 : zipMatch (st.tokens.getLast?.getD "") = some pfx := by
          by_cases hz : st.zipBoro = 9
          · rw [if_pos hz] at hzm
            exact hzm
          · rw [if_neg hz] at hzm
            exact absurd hzm (by simp)
        exact ihf c _ (Or.inr ⟨pfx, h99, rfl⟩)
      next hzm =>
        generalize (if simpleBoroLookup (st.tokens.getLast?.getD "") = 9
            then boroRegexLookup (st.tokens.getLast?.getD "")
            else simpleBoroLookup (st.tokens.getLast?.getD "")) = b2
        split
        next h9 => exact h
        next h9 =>
          split
          next h6 => exact h
          next h6 => exact ihf c _ h
    next hcond => exact h

theorem resolveLoopFuel_boro_unresolved : ∀ (fuel c : Nat) (st : ResolveState),
    (∀ t ∈ st.tokens, 6 ≤ simpleBoroLookup t ∧ 6 ≤ boroRegexLookup t) → 6 ≤ st.boro →
    6 ≤ (resolveLoopFuel c fuel st).boro := by
  intro fuel
  induction fuel with
  | zero => intro c st _ hb; exact hb
  | succ f ihf =>
    intro c st hall hb
    simp only [resolveLoopFuel]
    split
    next hcond =>
      have hdall : ∀ t ∈ st.tokens.dropLast, 6 ≤ simpleBoroLookup t ∧ 6 ≤ boroRegexLookup t :=
        fun t ht => hall t ((List.dropLast_prefix _).subset ht)
      split
      next pfx hzm => exact ihf c _ hdall hb
      next hzm =>
        have hne : st.tokens ≠ [] := by
          intro hnil
          rw [hnil] at hcond
          simp at hcond
        have hfin := hall _ (getLastD_mem st.tokens hne)
        have hb2 : 6 ≤ (if simpleBoroLookup (st.tokens.getLast?.getD "") = 9
            then boroRegexLookup (st.tokens.getLast?.getD "")
            else simpleBoroLookup (st.tokens.getLast?.getD "")) := by
          split
          · exact hfin.2
          · exact hfin.1
        revert hb2
        generalize (if simpleBoroLookup (st.tokens.getLast?.getD "") = 9
            then boroRegexLookup (st.tokens.getLast?.getD "")
            else simpleBoroLookup (st.tokens.getLast?.getD "")) = b2
        intro hb2
        split
        next h9 => exact (by omega : (6 : Nat) ≤ 9)
        next h9 =>
          split
          next h6 => exact hb2
          next h6 => exact ihf c _ hdall hb2
    next hcond => exact hb

theorem resolveLoopFuel_zip_frozen : ∀ (fuel c : Nat) (st : ResolveState),
    st.zipBoro ≠ 9 →
    (resolveLoopFuel c fuel st).postcode = st.postcode
      ∧ (resolveLoopFuel c fuel st).zipBoro = st.zipBoro := by
  intro fuel
  induction fuel with
  | zero => intro c st _; exact ⟨rfl, rfl⟩
  | succ f ihf =>
    intro c st hz
    simp only [resolveLoopFuel]
    split
    next hcond =>
      split
      next pfx hzm =>
        exact absurd hzm (by simp)
      next hzm =>
        generalize (if simpleBoroLookup (st.tokens.getLast?.getD "") = 9
            then boroRegexLookup (st.tokens.getLast?.getD "")
            else simpleBoroLookup (st.tokens.getLast?.getD "")) = b2
        split
        next h9 => exact ⟨rfl, rfl⟩
        next h9 =>
          split
          next h6 => exact ⟨rfl, rfl⟩
          next h6 => exact ihf c _ hz
    next hcond => exact ⟨rfl, rfl⟩

theorem resolveLoopFuel_postcode_pos : ∀ (fuel c : Nat) (st : ResolveState),
    st.zipBoro = 9 → st.postcode = "" →
    (resolveLoopFuel c fuel st).postcode = ""
      ∨ (startsFiveDigits (resolveLoopFuel c fuel st).postcode = true
         ∧ ∃ before after, st.tokens = before ++ [(resolveLoopFuel c fuel st).postcode] ++ after
             ∧ ∀ u ∈ after, startsFiveDigits u = false) := by
  intro fuel
  induction fuel with
  | zero => intro c st _ hp; exact Or.inl hp
  | succ f ihf =>
    intro c st hz9 hp
    simp only [resolveLoopFuel]
    split
    next hcond =>
      have hne : st.tokens ≠ [] := by
        intro hnil
        rw [hnil] at hcond
        simp at hcond
      split
      next pfx hzm =>
        have hzb : zipBoroLookup pfx ≠ 9 := (zipBoroLookup_range pfx).2
        have hfrozen := resolveLoopFuel_zip_frozen f c
          { tokens := st.tokens.dropLast, boro := st.boro,
            zipBoro := zipBoroLookup pfx,
            foundNy := st.foundNy, postcode := st.tokens.getLast?.getD "" } hzb
        refine Or.inr ?_
        rw [hfrozen.1]
        refine ⟨?_, st.tokens.dropLast, [], ?_, by simp⟩
        · unfold startsFiveDigits
          rw [hzm]
          rfl
        · simpa using tokens_decomp st.tokens hne
      next hzm =>
        have hlastnot : startsFiveDigits (st.tokens.getLast?.getD "") = false := by
          unfold startsFiveDigits
          rw [hzm]
          rfl
        generalize (if simpleBoroLookup (st.tokens.getLast?.getD "") = 9
            then boroRegexLookup (st.tokens.getLast?.getD "")
            else simpleBoroLookup (st.tokens.getLast?.getD "")) = b2
        split
        next h9 => exact Or.inl hp
        next h9 =>
          split
          next h6 => exact Or.inl hp
          next h6 =>
            rcases ihf c
              { tokens := st.tokens.dropLast, boro := b2, zipBoro := st.zipBoro,
                foundNy := st.foundNy || b2 = 6, postcode := st.postcode } hz9 hp with
              hl | ⟨h5, before, after, hdec, hafter⟩
            · exact Or.inl hl
            · refine Or.inr ⟨h5, before, after ++ [st.tokens.getLast?.getD ""], ?_, ?_⟩
              · have hts := tokens_decomp st.tokens hne
                have hdec2 : st.tokens.dropLast
                    = before ++ [(resolveLoopFuel c f
                        { tokens := st.tokens.dropLast, boro := b2, zipBoro := st.zipBoro,
                          foundNy := st.foundNy || b2 = 6,
                          postcode := st.postcode }).postcode] ++ after := hdec
                conv_lhs => rw [hts, hdec2]
                simp [List.append_assoc]
              · intro u hu
                rcases List.mem_append.mp hu with h | h
                · exact hafter u h
                · rw [List.mem_singleton.mp h]
                  exact hlastnot
    next hcond => exact Or.inl hp

theorem unionTokens_facts : ∀ u ∈ housenumberTokens ++ ambiguousTokens,
    simpleBoroLookup u = 9 ∧ boroRegexLookup u = 9 ∧ startsFiveDigits u = false := by decide

theorem getD_last_index (l : List String) :
    l.getD (l.length - 1) "" = l.getLast?.getD "" := by
  rw [List.getD_eq_getElem?_getD, ← List.getLast?_eq_getElem?]

theorem resolveLoopFuel_keeps_union : ∀ (fuel c : Nat) (st : ResolveState) (i : Nat),
    i < st.tokens.length →
    (housenumberTokens ++ ambiguousTokens).contains (st.tokens.getD i "") = true →
    i < (resolveLoopFuel c fuel st).tokens.length := by
  intro fuel
  induction fuel with
  | zero => intro c st i hi _; exact hi
  | succ f ihf =>
    intro c st i hi hu
    simp only [resolveLoopFuel]
    split
    next hcond =>
      have hne : st.tokens ≠ [] := by
        intro hnil
        rw [hnil] at hcond
        simp at hcond
      have hgl := getD_last_index st.tokens
      have htransfer : i < st.tokens.length - 1 →
          (housenumberTokens ++ ambiguousTokens).contains (st.tokens.dropLast.getD i "") = true := by
        intro h1
        rw [prefix_getD st.tokens.dropLast st.tokens (List.dropLast_prefix _) i
          (by simp only [List.length_dropLast]; omega)]
        exact hu
      split
      next pfx hzm =>
        have hzm2 : zipMatch (st.tokens.getLast?.getD "") = some pfx := by
          by_cases hz : st.zipBoro = 9
          · rw [if_pos hz] at hzm
            exact hzm
          · rw [if_neg hz] at hzm
            exact absurd hzm (by simp)
        by_cases hi1 : i < st.tokens.length - 1
        · exact ihf c _ i (by simp only [List.length_dropLast]; omega) (htransfer hi1)
        · exfalso
          have hieq : i = st.tokens.length - 1 := by omega
          rw [hieq, hgl] at hu
          have hfacts := unionTokens_facts _ (List.mem_of_elem_eq_true hu)
          rw [show startsFiveDigits (st.tokens.getLast?.getD "") = true by
            unfold startsFiveDigits; rw [hzm2]; rfl] at hfacts
          exact absurd hfacts.2.2 (by simp)
      next hzm =>
        by_cases hu2 : (housenumberTokens ++ ambiguousTokens).contains
            (st.tokens.getLast?.getD "") = true
        · have hfacts := unionTokens_facts _ (List.mem_of_elem_eq_true hu2)
          have hb2 : (if simpleBoroLookup (st.tokens.getLast?.getD "") = 9
              then boroRegexLookup (st.tokens.getLast?.getD "")
              else simpleBoroLookup (st.tokens.getLast?.getD "")) = 9 := by
            rw [hfacts.1, hfacts.2.1]
            simp
          rw [if_pos hb2]
          exact hi
        · have hi1 : i < st.tokens.length - 1 := by
            rcases Nat.lt_or_ge i (st.tokens.length - 1) with h | h
            · exact h
            · exfalso
              have hieq : i = st.tokens.length - 1 := by omega
              rw [hieq, hgl] at hu
              exact hu2 hu
          generalize (if simpleBoroLookup (st.tokens.getLast?.getD "") = 9
              then boroRegexLookup (st.tokens.getLast?.getD "")
              else simpleBoroLookup (st.tokens.getLast?.getD "")) = b2
          split
          next h9 => exact hi
          next h9 =>
            split
            next h6 =>
              simp only [List.length_dropLast]
              omega
            next h6 =>
              exact ihf c _ i (by simp only [List.length_dropLast]; omega) (htransfer hi1)
    next hcond => exact hi

/-! Lemmas about the housenumber counting loop. -/

theorem hnLoopFuel_spec : ∀ (fuel : Nat) (tokens : List String) (c : Nat),
    tokens.length ≤ c + fuel → c ≤ tokens.length →
    c ≤ hnLoopFuel tokens fuel c
    ∧ hnLoopFuel tokens fuel c ≤ tokens.length
    ∧ (∀ i, c ≤ i → i < hnLoopFuel tokens fuel c →
        (housenumberTokens.contains (tokens.getD i "")
          || (ambiguousTokens.contains (tokens.getD i "")
              && (housenumberTokens ++ ambiguousTokens).contains (tokens.getD (i + 1) ""))) = true)
    ∧ (hnLoopFuel tokens fuel c = tokens.length
        ∨ (housenumberTokens.contains (tokens.getD (hnLoopFuel tokens fuel c) "")
            || (ambiguousTokens.contains (tokens.getD (hnLoopFuel tokens fuel c) "")
                && (housenumberTokens ++ ambiguousTokens).contains
                    (tokens.getD (hnLoopFuel tokens fuel c + 1) ""))) = false) := by
  intro fuel
  induction fuel with
  | zero =>
    intro tokens c hf hc
    have hceq : c = tokens.length := by omega
    simp only [hnLoopFuel]
    exact ⟨Nat.le_refl c, by omega, fun i h1 h2 => absurd (lt_of_le_of_lt h1 h2) (by omega),
      Or.inl hceq⟩
  | succ f ihf =>
    intro tokens c hf hc
    by_cases hlt : c < tokens.length
    · simp only [hnLoopFuel, if_pos hlt]
      by_cases hq : (housenumberTokens.contains (tokens.getD c "")
          || (ambiguousTokens.contains (tokens.getD c "")
              && (housenumberTokens ++ ambiguousTokens).contains (tokens.getD (c + 1) ""))) = true
      · rw [if_pos hq]
        obtain ⟨ih1, ih2, ih3, ih4⟩ := ihf tokens (c + 1) (by omega) (by omega)
        refine ⟨by omega, ih2, ?_, ih4⟩
        intro i h1 h2
        rcases Nat.eq_or_lt_of_le h1 with rfl | h1'
        · exact hq
        · exact ih3 i h1' h2
      · rw [if_neg hq]
        exact ⟨Nat.le_refl c, by omega,
          fun i h1 h2 => absurd (lt_of_le_of_lt h1 h2) (by omega),
          Or.inr (by simpa using hq)⟩
    · simp only [hnLoopFuel, if_neg hlt]
      have hceq : c = tokens.length := by omega
      exact ⟨Nat.le_refl c, by omega, fun i h1 h2 => absurd (lt_of_le_of_lt h1 h2) (by omega),
        Or.inl hceq⟩

theorem housenumberTokenCount_le (tokens : List String) :
    housenumberTokenCount tokens ≤ tokens.length := by
  unfold housenumberTokenCount
  by_cases hd : firstCharIsDigit (tokens.getD 0 "") = true
  · rw [if_pos hd]
    have hne : tokens ≠ [] := by
      intro hnil
      rw [hnil] at hd
      simp [firstCharIsDigit] at hd
    have h1 : 1 ≤ tokens.length := by
      cases tokens with
      | nil => exact absurd rfl hne
      | cons a l => simp
    exact (hnLoopFuel_spec (tokens.length - 1) tokens 1 (by omega) h1).2.1
  · rw [if_neg hd]
    exact Nat.zero_le _

theorem hnLoopFuel_lower : ∀ (fuel : Nat) (tokens : List String) (c : Nat),
    c ≤ hnLoopFuel tokens fuel c := by
  intro fuel
  induction fuel with
  | zero => intro tokens c; simp [hnLoopFuel]
  | succ f ihf =>
    intro tokens c
    simp only [hnLoopFuel]
    split
    · split
      · exact le_trans (by omega) (ihf tokens (c + 1))
      · exact Nat.le_refl c
    · exact Nat.le_refl c

theorem getD_take_lt (tokens : List String) (m i : Nat) (him : i < m) (hml : m ≤ tokens.length) :
    (tokens.take m).getD i "" = tokens.getD i "" :=
  prefix_getD _ _ (List.take_prefix m tokens) i
    (by rw [List.length_take]; omega)

theorem getD_take_ge (tokens : List String) (m i : Nat) (him : m ≤ i) :
    (tokens.take m).getD i "" = "" := by
  rw [List.getD_eq_getElem?_getD, List.getElem?_eq_none (by rw [List.length_take]; omega)]
  rfl

theorem hnLoop_take_stable : ∀ (f1 f2 : Nat) (tokens : List String) (m c : Nat),
    m ≤ tokens.length →
    tokens.length ≤ c + f1 → m ≤ c + f2 →
    hnLoopFuel tokens f1 c ≤ m →
    (m < tokens.length →
      (housenumberTokens ++ ambiguousTokens).contains (tokens.getD m "") = false) →
    hnLoopFuel (tokens.take m) f2 c = hnLoopFuel tokens f1 c := by
  intro f1
  induction f1 with
  | zero =>
    intro f2 tokens m c hml hf1 hf2 hr hbd
    simp only [hnLoopFuel]
    have hceq : c = tokens.length := by
      have : hnLoopFuel tokens 0 c = c := rfl
      omega
    cases f2 with
    | zero => rfl
    | succ g =>
      simp only [hnLoopFuel]
      rw [if_neg (by rw [List.length_take]; omega)]
  | succ f ihf =>
    intro f2 tokens m c hml hf1 hf2 hr hbd
    by_cases hlt : c < tokens.length
    · simp only [hnLoopFuel, if_pos hlt] at hr ⊢
      by_cases hq : (housenumberTokens.contains (tokens.getD c "")
          || (ambiguousTokens.contains (tokens.getD c "")
              && (housenumberTokens ++ ambiguousTokens).contains (tokens.getD (c + 1) ""))) = true
      · rw [if_pos hq] at hr ⊢
        have hc1 : c + 1 ≤ hnLoopFuel tokens f (c + 1) := hnLoopFuel_lower f tokens (c + 1)
        have hcm : c < m := by omega
        cases f2 with
        | zero => omega
        | succ g =>
          simp only [hnLoopFuel]
          rw [if_pos (by rw [List.length_take]; omega)]
          have hgc : (tokens.take m).getD c "" = tokens.getD c "" := getD_take_lt tokens m c hcm hml
          by_cases hc1m : c + 1 < m
          · have hgc1 : (tokens.take m).getD (c + 1) "" = tokens.getD (c + 1) "" :=
              getD_take_lt tokens m (c + 1) hc1m hml
            rw [if_pos (by rw [hgc, hgc1]; exact hq)]
            exact ihf g tokens m (c + 1) hml (by omega) (by omega) hr hbd
          · have hc1eq : c + 1 = m := by omega
            have hhn : housenumberTokens.contains (tokens.getD c "") = true := by
              rcases Bool.or_eq_true_iff.mp hq with h | h
              · exact h
              · exfalso
                have hlk := (Bool.and_eq_true_iff.mp h).2
                rw [hc1eq] at hlk
                by_cases hmlen : m < tokens.length
                · rw [hbd hmlen] at hlk
                  exact Bool.false_ne_true hlk
                · have hemp : tokens.getD m "" = "" := by
                    rw [List.getD_eq_getElem?_getD, List.getElem?_eq_none (by omega)]
                    rfl
                  rw [hemp] at hlk
                  exact absurd hlk (by decide)
            rw [if_pos (by rw [hgc, hhn, Bool.true_or])]
            exact ihf g tokens m (c + 1) hml (by omega) (by omega) hr hbd
      · rw [if_neg hq] at hr ⊢
        have hqf : (housenumberTokens.contains (tokens.getD c "")
            || (ambiguousTokens.contains (tokens.getD c "")
                && (housenumberTokens ++ ambiguousTokens).contains (tokens.getD (c + 1) "")))
              = false := Bool.eq_false_iff.mpr hq
        obtain ⟨h1, h2⟩ := Bool.or_eq_false_iff.mp hqf
        cases f2 with
        | zero => rfl
        | succ g =>
          simp only [hnLoopFuel]
          by_cases hcm : c < m
          · rw [if_pos (by rw [List.length_take]; omega)]
            have hgc : (tokens.take m).getD c "" = tokens.getD c "" := getD_take_lt tokens m c hcm hml
            have hq2 : (housenumberTokens.contains ((tokens.take m).getD c "")
                || (ambiguousTokens.contains ((tokens.take m).getD c "")
                    && (housenumberTokens ++ ambiguousTokens).contains
                        ((tokens.take m).getD (c + 1) ""))) = false := by
              rw [hgc, h1, Bool.false_or]
              by_cases hc1m : c + 1 < m
              · rw [getD_take_lt tokens m (c + 1) hc1m hml]
                exact h2
              · rw [getD_take_ge tokens m (c + 1) (by omega)]
                rw [show ((housenumberTokens ++ ambiguousTokens).contains "") = false from by decide]
                exact Bool.and_false _
            rw [if_neg (by rw [hq2]; simp)]
          · rw [if_neg (by rw [List.length_take]; omega)]
    · simp only [hnLoopFuel, if_neg hlt] at hr ⊢
      cases f2 with
      | zero => rfl
      | succ g =>
        simp only [hnLoopFuel]
        rw [if_neg (by rw [List.length_take]; omega)]

theorem getD_dropLast (l : List String) (i : Nat) (h : i < l.length - 1) :
    l.dropLast.getD i "" = l.getD i "" :=
  prefix_getD _ _ (List.dropLast_prefix l) i (by rw [List.length_dropLast]; omega)

theorem resolveLoopFuel_pop_aux (f c : Nat) (st st2 : ResolveState)
    (ihf : ∀ (c : Nat) (s : ResolveState),
      (resolveLoopFuel c f s).tokens.length < s.tokens.length →
      startsFiveDigits (s.tokens.getD (resolveLoopFuel c f s).tokens.length "") = true
        ∨ simpleBoroLookup (s.tokens.getD (resolveLoopFuel c f s).tokens.length "") ≠ 9
        ∨ boroRegexLookup (s.tokens.getD (resolveLoopFuel c f s).tokens.length "") ≠ 9)
    (htok : st2.tokens = st.tokens.dropLast)
    (hlast : startsFiveDigits (st.tokens.getLast?.getD "") = true
      ∨ simpleBoroLookup (st.tokens.getLast?.getD "") ≠ 9
      ∨ boroRegexLookup (st.tokens.getLast?.getD "") ≠ 9) :
    startsFiveDigits (st.tokens.getD (resolveLoopFuel c f st2).tokens.length "") = true
      ∨ simpleBoroLookup (st.tokens.getD (resolveLoopFuel c f st2).tokens.length "") ≠ 9
      ∨ boroRegexLookup (st.tokens.getD (resolveLoopFuel c f st2).tokens.length "") ≠ 9 := by
  have hpl := ( resolveLoopFuel_tokens_prefix f c st2).length_le
  rw [htok, List.length_dropLast] at hpl
  by_cases hlt : (resolveLoopFuel c f st2).tokens.length < st.tokens.length - 1
  · have hind := ihf c st2 (by rw [htok, List.length_dropLast]; omega)
    rw [htok, getD_dropLast st.tokens _ hlt] at hind
    exact hind
  · have hkeq : (resolveLoopFuel c f st2).tokens.length = st.tokens.length - 1 := by omega
    rw [hkeq, getD_last_index]
    exact hlast

theorem resolveLoopFuel_pop_last : ∀ (fuel c : Nat) (st : ResolveState),
    (resolveLoopFuel c fuel st).tokens.length < st.tokens.length →
    startsFiveDigits (st.tokens.getD (resolveLoopFuel c fuel st).tokens.length "") = true
      ∨ simpleBoroLookup (st.tokens.getD (resolveLoopFuel c fuel st).tokens.length "") ≠ 9
      ∨ boroRegexLookup (st.tokens.getD (resolveLoopFuel c fuel st).tokens.length "") ≠ 9 := by
  intro fuel
  induction fuel with
  | zero =>
    intro c st
    simp only [resolveLoopFuel]
    intro hk
    exact absurd hk (lt_irrefl _)
  | succ f ihf =>
    intro c st
    simp only [resolveLoopFuel]
    split
    next hcond =>
      clear hcond
      split
      next pfx hzm =>
        intro hk
        have hzm2 : zipMatch (st.tokens.getLast?.getD "") = some pfx := by
          by_cases hz9 : st.zipBoro = 9
          · rwa [if_pos hz9] at hzm
          · rw [if_neg hz9] at hzm
            exact absurd hzm (by simp)
        exact resolveLoopFuel_pop_aux f c st _ ihf rfl
          (Or.inl (by simp [startsFiveDigits, hzm2]))
      next hzm =>
        by_cases hs : simpleBoroLookup (st.tokens.getLast?.getD "") = 9
        · rw [if_pos hs]
          split
          next h9 =>
            intro hk
            have hk2 : st.tokens.length < st.tokens.length := hk
            exact absurd hk2 (lt_irrefl _)
          next h9 =>
            split
            next h6 =>
              intro hk
              have hres : startsFiveDigits (st.tokens.getD (st.tokens.length - 1) "") = true
                  ∨ simpleBoroLookup (st.tokens.getD (st.tokens.length - 1) "") ≠ 9
                  ∨ boroRegexLookup (st.tokens.getD (st.tokens.length - 1) "") ≠ 9 := by
                rw [getD_last_index]
                exact Or.inr (Or.inr h9)
              rw [← List.length_dropLast st.tokens] at hres
              exact hres
            next h6 =>
              intro hk
              exact resolveLoopFuel_pop_aux f c st _ ihf rfl (Or.inr (Or.inr h9))
        · rw [if_neg hs]
          split
          next h9 => exact absurd h9 hs
          next h9 =>
            split
            next h6 =>
              intro hk
              have hres : startsFiveDigits (st.tokens.getD (st.tokens.length - 1) "") = true
                  ∨ simpleBoroLookup (st.tokens.getD (st.tokens.length - 1) "") ≠ 9
                  ∨ boroRegexLookup (st.tokens.getD (st.tokens.length - 1) "") ≠ 9 := by
                rw [getD_last_index]
                exact Or.inr (Or.inl hs)
              rw [← List.length_dropLast st.tokens] at hres
              exact hres
            next h6 =>
              intro hk
              exact resolveLoopFuel_pop_aux f c st _ ihf rfl (Or.inr (Or.inl hs))
    next hcond =>
      intro hk
      exact absurd hk (lt_irrefl _)

theorem resolveLoop_pop_last (c : Nat) (st : ResolveState)
    (hk : (resolveLoop c st).tokens.length < st.tokens.length) :
    startsFiveDigits (st.tokens.getD (resolveLoop c st).tokens.length "") = true
      ∨ simpleBoroLookup (st.tokens.getD (resolveLoop c st).tokens.length "") ≠ 9
      ∨ boroRegexLookup (st.tokens.getD (resolveLoop c st).tokens.length "") ≠ 9 :=
  resolveLoopFuel_pop_last st.tokens.length c st hk

theorem hnCount_take_stable (tokens : List String) (k : Nat)
    (hk : k ≤ tokens.length)
    (hr : housenumberTokenCount tokens ≤ k)
    (hbd : k < tokens.length →
      (housenumberTokens ++ ambiguousTokens).contains (tokens.getD k "") = false) :
    housenumberTokenCount (tokens.take k) = housenumberTokenCount tokens := by
  cases Nat.eq_zero_or_pos k with
  | inl h0 =>
    subst h0
    rw [List.take_zero]
    have hc0 : housenumberTokenCount tokens = 0 := by omega
    rw [hc0]
    rfl
  | inr hpos =>
    unfold housenumberTokenCount
    rw [getD_take_lt tokens k 0 hpos hk]
    by_cases hd : firstCharIsDigit (tokens.getD 0 "") = true
    · rw [if_pos hd, if_pos hd]
      unfold hnCountLoop
      rw [List.length_take]
      have hmin : min k tokens.length = k := by omega
      rw [hmin]
      have hr2 : hnLoopFuel tokens (tokens.length - 1) 1 ≤ k := by
        unfold housenumberTokenCount at hr
        rw [if_pos hd] at hr
        exact hr
      exact hnLoop_take_stable (tokens.length - 1) (k - 1) tokens k 1 hk (by omega) (by omega)
        hr2 hbd
    · rw [if_neg hd, if_neg hd]

theorem count_prefix_stable (T K : List String)
    (hpre : K <+: T)
    (hr : housenumberTokenCount T ≤ K.length)
    (hbd : K.length < T.length →
      (housenumberTokens ++ ambiguousTokens).contains (T.getD K.length "") = false) :
    housenumberTokenCount K = housenumberTokenCount T := by
  have htake : K = T.take K.length := List.prefix_iff_eq_take.mp hpre
  conv_lhs => rw [htake]
  exact hnCount_take_stable T K.length hpre.length_le hr hbd

theorem reparse_count_eq (st : ResolveState) :
    housenumberTokenCount (resolveLoop (housenumberTokenCount st.tokens) st).tokens
      = housenumberTokenCount st.tokens := by
  have hpre := resolveLoop_tokens_prefix (housenumberTokenCount st.tokens) st
  refine count_prefix_stable st.tokens _ hpre ?_ ?_
  · have hm := resolveLoop_length (housenumberTokenCount st.tokens) st
    have hcl := housenumberTokenCount_le st.tokens
    have hkle := hpre.length_le
    omega
  · intro hlt
    have hpop := resolveLoop_pop_last (housenumberTokenCount st.tokens) st hlt
    cases hb : (housenumberTokens ++ ambiguousTokens).contains
        (st.tokens.getD (resolveLoop (housenumberTokenCount st.tokens) st).tokens.length "") with
    | false => rfl
    | true =>
      exfalso
      have hmem : st.tokens.getD (resolveLoop (housenumberTokenCount st.tokens) st).tokens.length ""
          ∈ housenumberTokens ++ ambiguousTokens := by
        simpa using hb
      have hfacts := unionTokens_facts _ hmem
      rcases hpop with h | h | h
      · rw [hfacts.2.2] at h
        exact absurd h (by decide)
      · exact h hfacts.1
      · exact h hfacts.2.1

theorem parse_fields (s : String) :
    (parseNycAddress s).housenumber
        = (if housenumberTokenCount (tokenize s) > 0
              ∧ joinSpace ((resolvedTokens s).take
                  (finalHousenumberTokenCount (resolvedTokens s)
                    (housenumberTokenCount (tokenize s)))) ≠ ""
           then some (joinSpace ((resolvedTokens s).take
                  (finalHousenumberTokenCount (resolvedTokens s)
                    (housenumberTokenCount (tokenize s)))))
           else none)
      ∧ (parseNycAddress s).street
        = (if joinSpace ((resolvedTokens s).drop
              (finalHousenumberTokenCount (resolvedTokens s)
                (housenumberTokenCount (tokenize s)))) ≠ ""
           then some (joinSpace ((resolvedTokens s).drop
              (finalHousenumberTokenCount (resolvedTokens s)
                (housenumberTokenCount (tokenize s)))))
           else none) := by
  refine ⟨?_, ?_⟩ <;> simp only [parseNycAddress, resolvedTokens]

/-- C4 (amended): re-parsing the concatenation of the output housenumber and
    street fields preserves the housenumber/street split, provided the
    concatenation re-tokenizes exactly to the token list that survived
    borough resolution and the resolver pops no token on the re-parse. -/
theorem c4_reparse_split_stable (input : String)
    (hretok : tokenize (concatHnStreet (parseNycAddress input)) = resolvedTokens input)
    (hnopop : (resolveLoop (housenumberTokenCount (resolvedTokens input))
        (initState (resolvedTokens input))).tokens = resolvedTokens input) :
    (parseNycAddress (concatHnStreet (parseNycAddress input))).housenumber
        = (parseNycAddress input).housenumber
      ∧ (parseNycAddress (concatHnStreet (parseNycAddress input))).street
        = (parseNycAddress input).street := by
  have hcnt : housenumberTokenCount (resolvedTokens input)
      = housenumberTokenCount (tokenize input) :=
    reparse_count_eq (initState (tokenize input))
  have hrt : resolvedTokens (concatHnStreet (parseNycAddress input)) = resolvedTokens input := by
    have h : resolvedTokens (concatHnStreet (parseNycAddress input))
        = (resolveLoop
            (housenumberTokenCount (tokenize (concatHnStreet (parseNycAddress input))))
            (initState (tokenize (concatHnStreet (parseNycAddress input))))).tokens := rfl
    rw [h, hretok, hnopop]
  obtain ⟨hH1, hS1⟩ := parse_fields input
  obtain ⟨hH2, hS2⟩ := parse_fields (concatHnStreet (parseNycAddress input))
  rw [hrt, hretok, hcnt] at hH2 hS2
  exact ⟨hH2.trans hH1.symm, hS2.trans hS1.symm⟩

/-- Witness for C4: on the input 123 BROADWAY both side conditions hold by
    computation and the re-parsed split is unchanged. -/
theorem c4_reparse_split_stable_witness :
    (parseNycAddress (concatHnStreet (parseNycAddress "123 BROADWAY"))).housenumber
        = (parseNycAddress "123 BROADWAY").housenumber
      ∧ (parseNycAddress (concatHnStreet (parseNycAddress "123 BROADWAY"))).street
        = (parseNycAddress "123 BROADWAY").street :=
  c4_reparse_split_stable "123 BROADWAY" (by decide) (by decide)

/-- Counterexample to C4 as stated: on 123 A QUEENS BROOKLYN the original
    parse returns housenumber 123 A and street QUEENS, but re-parsing their
    concatenation returns housenumber 123 and street A QUEENS. -/
theorem c4_counterexample :
    ¬ ((parseNycAddress (concatHnStreet (parseNycAddress "123 A QUEENS BROOKLYN"))).housenumber
          = (parseNycAddress "123 A QUEENS BROOKLYN").housenumber
        ∧ (parseNycAddress (concatHnStreet (parseNycAddress "123 A QUEENS BROOKLYN"))).street
          = (parseNycAddress "123 A QUEENS BROOKLYN").street) := by
  decide

theorem leOptNat_zero (m : Option Nat) : leOptNat 0 m := by
  cases m <;> simp [leOptNat]

theorem leOptNat_add {a b : Nat} {m1 m2 : Option Nat}
    (h1 : leOptNat a m1) (h2 : leOptNat b m2) : leOptNat (a + b) (optNatAdd m1 m2) := by
  cases m1 <;> cases m2 <;> (simp [leOptNat, optNatAdd] at *; try omega)

theorem cntL_nil (cs : List Char) : cntL cs [] = 0 := rfl

theorem cntL_append (cs u v : List Char) : cntL cs (u ++ v) = cntL cs u + cntL cs v :=
  List.countP_append _ u v

theorem cntL_single (cs : List Char) (a : Char) :
    cntL cs [a] = if cs.contains a then 1 else 0 := by
  simp [cntL, List.countP_cons]

theorem cntL_zero_of_none (cs u : List Char) (h : ∀ a ∈ u, cs.contains a = false) :
    cntL cs u = 0 :=
  List.countP_eq_zero.mpr (fun a ha hca => by rw [h a ha] at hca; exact absurd hca (by decide))

theorem starMatches_spec : ∀ (f : Char → Bool) (prev : Option Char) (s : List Char)
    (r : Option Char × List Char), r ∈ starMatches f prev s →
    ∃ u, s = u ++ r.2 ∧ ∀ a ∈ u, f a = true := by
  intro f prev s
  induction s generalizing prev with
  | nil =>
    intro r hr
    have : r = (prev, []) := List.mem_singleton.mp hr
    subst this
    exact ⟨[], rfl, by simp⟩
  | cons a rest ih =>
    intro r hr
    simp only [starMatches] at hr
    by_cases hfa : f a = true
    · rw [if_pos hfa] at hr
      rcases List.mem_append.mp hr with h | h
      · obtain ⟨u, hu, hall⟩ := ih (some a) r h
        refine ⟨a :: u, by rw [List.cons_append, ← hu], ?_⟩
        intro b hb
        rcases List.mem_cons.mp hb with hb1 | hb2
        · rw [hb1]; exact hfa
        · exact hall b hb2
      · have : r = (prev, a :: rest) := List.mem_singleton.mp h
        subst this
        exact ⟨[], rfl, by simp⟩
    · rw [if_neg hfa] at hr
      have : r = (prev, a :: rest) := List.mem_singleton.mp hr
      subst this
      exact ⟨[], rfl, by simp⟩

theorem matchP_bounds : ∀ (p : Pat) (prev : Option Char) (s : List Char)
    (r : Option Char × List Char), r ∈ matchP p prev s →
    ∃ u, s = u ++ r.2
      ∧ minLenP p ≤ u.length ∧ leOptNat u.length (maxLenP p)
      ∧ ∀ cs : List Char, minCntL cs p ≤ cntL cs u ∧ leOptNat (cntL cs u) (maxCntL cs p) := by
  intro p
  induction p with
  | eps =>
    intro prev s r hr
    have : r = (prev, s) := List.mem_singleton.mp hr
    subst this
    refine ⟨[], rfl, ?_, ?_, fun cs => ⟨?_, ?_⟩⟩ <;>
      simp [minLenP, maxLenP, leOptNat, minCntL, maxCntL, cntL_nil]
  | ch c =>
    intro prev s r hr
    cases s with
    | nil => exact absurd hr (List.not_mem_nil r)
    | cons a rest =>
      have hr2 : r ∈ (if a = c then [(some a, rest)] else []) := hr
      clear hr
      by_cases hac : a = c
      · rw [if_pos hac] at hr2
        have : r = (some a, rest) := List.mem_singleton.mp hr2
        subst this
        subst hac
        refine ⟨[a], rfl, ?_, ?_, fun cs => ⟨?_, ?_⟩⟩
        · simp [minLenP]
        · simp [maxLenP, leOptNat]
        · rw [cntL_single]
          simp only [minCntL]
          split <;> simp
        · rw [cntL_single]
          simp only [maxCntL, leOptNat]
          split <;> simp
      · rw [if_neg hac] at hr2
        exact absurd hr2 (List.not_mem_nil r)
  | cls f =>
    intro prev s r hr
    cases s with
    | nil => exact absurd hr (List.not_mem_nil r)
    | cons a rest =>
      have hr2 : r ∈ (if f a = true then [(some a, rest)] else []) := hr
      clear hr
      by_cases hfa : f a = true
      · rw [if_pos hfa] at hr2
        have : r = (some a, rest) := List.mem_singleton.mp hr2
        subst this
        refine ⟨[a], rfl, ?_, ?_, fun cs => ⟨?_, ?_⟩⟩
        · simp [minLenP]
        · simp [maxLenP, leOptNat]
        · simp [minCntL]
        · simp only [maxCntL]
          by_cases hall : cs.all (fun x => !(f x)) = true
          · rw [if_pos hall]
            have hca : cs.contains a = false := by
              cases hc : cs.contains a with
              | false => rfl
              | true =>
                have hmem : a ∈ cs := by simpa using hc
                have := List.all_eq_true.mp hall a hmem
                rw [hfa] at this
                exact absurd this (by decide)
            rw [cntL_single, hca]
            simp [leOptNat]
          · rw [if_neg hall]
            rw [cntL_single]
            show (if cs.contains a then 1 else 0) ≤ 1
            split <;> omega
      · rw [if_neg hfa] at hr2
        exact absurd hr2 (List.not_mem_nil r)
  | seq p q ih1 ih2 =>
    intro prev s r hr
    simp only [matchP, List.mem_flatMap] at hr
    obtain ⟨r1, hr1, hr2⟩ := hr
    obtain ⟨u1, hs1, hmin1, hmax1, hcnt1⟩ := ih1 prev s r1 hr1
    obtain ⟨u2, hs2, hmin2, hmax2, hcnt2⟩ := ih2 r1.1 r1.2 r hr2
    refine ⟨u1 ++ u2, ?_, ?_, ?_, fun cs => ⟨?_, ?_⟩⟩
    · rw [hs1, hs2, List.append_assoc]
    · simp only [minLenP, List.length_append]
      exact Nat.add_le_add hmin1 hmin2
    · simp only [maxLenP, List.length_append]
      exact leOptNat_add hmax1 hmax2
    · simp only [minCntL]
      rw [cntL_append]
      exact Nat.add_le_add (hcnt1 cs).1 (hcnt2 cs).1
    · simp only [maxCntL]
      rw [cntL_append]
      exact leOptNat_add (hcnt1 cs).2 (hcnt2 cs).2
  | opt p ih =>
    intro prev s r hr
    simp only [matchP] at hr
    rcases List.mem_append.mp hr with h | h
    · obtain ⟨u, hs, hmin, hmax, hcnt⟩ := ih prev s r h
      refine ⟨u, hs, ?_, ?_, fun cs => ⟨?_, ?_⟩⟩
      · simp [minLenP]
      · simp only [maxLenP]
        exact hmax
      · simp [minCntL]
      · simp only [maxCntL]
        exact (hcnt cs).2
    · have : r = (prev, s) := List.mem_singleton.mp h
      subst this
      refine ⟨[], rfl, ?_, ?_, fun cs => ⟨?_, ?_⟩⟩
      · simp [minLenP]
      · simp only [maxLenP, List.length_nil]
        exact leOptNat_zero _
      · simp [minCntL]
      · simp only [maxCntL, cntL_nil]
        exact leOptNat_zero _
  | starCls f =>
    intro prev s r hr
    obtain ⟨u, hs, hall⟩ := starMatches_spec f prev s r hr
    refine ⟨u, hs, ?_, ?_, fun cs => ⟨?_, ?_⟩⟩
    · simp [minLenP]
    · simp [maxLenP, leOptNat]
    · simp [minCntL]
    · simp only [maxCntL]
      by_cases hcla : cs.all (fun x => !(f x)) = true
      · rw [if_pos hcla]
        have : cntL cs u = 0 := by
          apply cntL_zero_of_none
          intro a ha
          cases hc : cs.contains a with
          | false => rfl
          | true =>
            have hmem : a ∈ cs := by simpa using hc
            have h2 := List.all_eq_true.mp hcla a hmem
            rw [hall a ha] at h2
            exact absurd h2 (by decide)
        rw [this]
        simp [leOptNat]
      · rw [if_neg hcla]
        simp [leOptNat]
  | plusCls f =>
    intro prev s r hr
    cases s with
    | nil => exact absurd hr (List.not_mem_nil r)
    | cons a rest =>
      have hr2 : r ∈ (if f a = true then starMatches f (some a) rest else []) := hr
      clear hr
      by_cases hfa : f a = true
      · rw [if_pos hfa] at hr2
        obtain ⟨u, hs, hall⟩ := starMatches_spec f (some a) rest r hr2
        refine ⟨a :: u, by rw [List.cons_append, ← hs], ?_, ?_, fun cs => ⟨?_, ?_⟩⟩
        · simp [minLenP]
        · simp [maxLenP, leOptNat]
        · simp [minCntL]
        · simp only [maxCntL]
          by_cases hcla : cs.all (fun x => !(f x)) = true
          · rw [if_pos hcla]
            have : cntL cs (a :: u) = 0 := by
              apply cntL_zero_of_none
              intro b hb
              cases hc : cs.contains b with
              | false => rfl
              | true =>
                have hmem : b ∈ cs := by simpa using hc
                have h2 := List.all_eq_true.mp hcla b hmem
                have hfb : f b = true := by
                  rcases List.mem_cons.mp hb with hb1 | hb2
                  · rw [hb1]; exact hfa
                  · exact hall b hb2
                rw [hfb] at h2
                exact absurd h2 (by decide)
            rw [this]
            simp [leOptNat]
          · rw [if_neg hcla]
            simp [leOptNat]
      · rw [if_neg hfa] at hr2
        exact absurd hr2 (List.not_mem_nil r)
  | wb =>
    intro prev s r hr
    simp only [matchP] at hr
    by_cases hbd : boundaryAt prev s = true
    · rw [if_pos hbd] at hr
      have : r = (prev, s) := List.mem_singleton.mp hr
      subst this
      refine ⟨[], rfl, ?_, ?_, fun cs => ⟨?_, ?_⟩⟩
      · simp [minLenP]
      · simp [maxLenP, leOptNat]
      · simp [minCntL]
      · simp [maxCntL, cntL_nil, leOptNat]
    · rw [if_neg hbd] at hr
      exact absurd hr (List.not_mem_nil r)

theorem tryAlts_spec : ∀ (ps : List Pat) (prev : Option Char) (s : List Char)
    (r : Option Char × List Char),
    tryAlts ps prev s = some r → ∃ p ∈ ps, r ∈ matchP p prev s := by
  intro ps
  induction ps with
  | nil =>
    intro prev s r h
    exact absurd h (by simp [tryAlts])
  | cons p ps ih =>
    intro prev s r h
    simp only [tryAlts] at h
    cases hm : matchP p prev s with
    | nil =>
      simp only [hm] at h
      obtain ⟨q, hq, hr⟩ := ih prev s r h
      exact ⟨q, List.mem_cons_of_mem p hq, hr⟩
    | cons r0 tl =>
      simp only [hm] at h
      have : r0 = r := Option.some.inj h
      subst this
      exact ⟨p, List.mem_cons_self p ps, by rw [hm]; exact List.mem_cons_self r0 tl⟩

theorem scanFuel_tokens : ∀ (fuel : Nat) (prev : Option Char) (s : List Char) (u : List Char),
    u ∈ scanFuel fuel prev s →
    ∃ p ∈ tokenizerAlts, ∃ prev2 lastc rem, (lastc, rem) ∈ matchP p prev2 (u ++ rem) := by
  intro fuel
  induction fuel with
  | zero =>
    intro prev s u hu
    cases s with
    | nil => exact absurd hu (List.not_mem_nil u)
    | cons a rest => exact absurd hu (List.not_mem_nil u)
  | succ f ihf =>
    intro prev s u hu
    cases s with
    | nil => exact absurd hu (List.not_mem_nil u)
    | cons a rest =>
      simp only [scanFuel] at hu
      cases htry : tryAlts tokenizerAlts prev (a :: rest) with
      | none =>
        simp only [htry] at hu
        exact ihf (some a) rest u hu
      | some rr =>
        obtain ⟨lastc, rem⟩ := rr
        simp only [htry] at hu
        obtain ⟨p, hp, hr⟩ := tryAlts_spec tokenizerAlts prev (a :: rest) (lastc, rem) htry
        by_cases hlen : rem.length < (a :: rest).length
        · rw [if_pos hlen] at hu
          rcases List.mem_cons.mp hu with hu1 | hu2
          · obtain ⟨u0, hdecomp, h1, h2, h3⟩ :=
              matchP_bounds p prev (a :: rest) (lastc, rem) hr
            have htake : (a :: rest).take ((a :: rest).length - rem.length) = u0 := by
              rw [hdecomp]
              have hlen0 : (u0 ++ rem).length - rem.length = u0.length := by
                rw [List.length_append]
                omega
              rw [hlen0]
              exact List.take_left u0 rem
            rw [hu1, htake]
            exact ⟨p, hp, prev, lastc, rem, by rw [← hdecomp]; exact hr⟩
          · exact ihf lastc rem u hu2
        · rw [if_neg hlen] at hu
          exact absurd hu (List.not_mem_nil u)

theorem tokenize_token_spec (input : String) (t : String) (ht : t ∈ tokenize input) :
    ∃ p ∈ tokenizerAlts, ∃ prev2 lastc rem,
      (lastc, rem) ∈ matchP p prev2 (t.data ++ rem) := by
  unfold tokenize at ht
  obtain ⟨u, hu, hmk⟩ := List.mem_map.mp ht
  obtain ⟨p, hp, prev2, lastc, rem, hr⟩ := scanFuel_tokens _ none _ u hu
  refine ⟨p, hp, prev2, lastc, rem, ?_⟩
  rw [← hmk]
  exact hr

theorem tokenizerAlts_no_mhh :
    (tokenizerAlts.all fun p => cannotContain p mhhCorePat) = true := by decide

theorem tokenizerAlts_sep_mh :
    (tokenizerAlts.all fun p =>
      marbleHillStreetRegexes.all fun q => patsSeparated p q) = true := by decide

theorem tokenizerAlts_min_len :
    (tokenizerAlts.all fun p => decide (1 ≤ minLenP p)) = true := by decide

theorem mhhSearchAux_eq_none (s : List Char)
    (h : ∀ s2, s2 <:+ s → matchP mhhCorePat none s2 = []) :
    mhhSearchAux s = none := by
  induction s with
  | nil => rfl
  | cons a rest ih =>
    show (match (matchP mhhCorePat none (a :: rest)).head? with
      | some r =>
        match (matchP mhhBldgPat r.1 r.2).head? with
        | some r2 =>
          let digits := r2.2.takeWhile Char.isDigit
          if digits.isEmpty then some none else some (some (String.mk digits))
        | none => some none
      | none => mhhSearchAux rest) = none
    rw [h (a :: rest) (List.suffix_refl _)]
    exact ih (fun s2 hs2 => h s2 (hs2.trans (List.suffix_cons a rest)))

theorem cntL_infix (cs pre w post : List Char) :
    cntL cs w ≤ cntL cs (pre ++ w ++ post) := by
  rw [cntL_append, cntL_append]
  omega

theorem cannotContain_absurd (p q : Pat) (hcc : cannotContain p q = true)
    (x w pre post : List Char)
    (hx : x = pre ++ w ++ post)
    (hmaxp : leOptNat x.length (maxLenP p))
    (hcntp : ∀ cs, leOptNat (cntL cs x) (maxCntL cs p))
    (hminq : minLenP q ≤ w.length)
    (hcntq : ∀ cs, minCntL cs q ≤ cntL cs w) : False := by
  unfold cannotContain at hcc
  rcases Bool.or_eq_true_iff.mp hcc with h | h
  · cases hm : maxLenP p with
    | none =>
      rw [hm] at h
      exact absurd h (by simp [ltOpt])
    | some m =>
      rw [hm] at h hmaxp
      have h2 : m < minLenP q := by simpa [ltOpt] using h
      have h3 : x.length ≤ m := hmaxp
      have h4 : w.length ≤ x.length := by
        subst hx
        simp [List.length_append]
        omega
      omega
  · obtain ⟨cs, hcs, h2⟩ := List.any_eq_true.mp h
    cases hm : maxCntL cs p with
    | none =>
      rw [hm] at h2
      exact absurd h2 (by simp [ltOpt])
    | some m =>
      have hp2 := hcntp cs
      rw [hm] at h2 hp2
      have h3 : m < minCntL cs q := by simpa [ltOpt] using h2
      have h4 := hcntq cs
      have h5 : cntL cs w ≤ cntL cs x := by
        subst hx
        exact cntL_infix cs pre w post
      have h6 : cntL cs x ≤ m := hp2
      omega

theorem patsSeparated_absurd (p q : Pat) (hsep : patsSeparated p q = true)
    (x : List Char)
    (hminp : minLenP p ≤ x.length) (hmaxp : leOptNat x.length (maxLenP p))
    (hcntp : ∀ cs, minCntL cs p ≤ cntL cs x ∧ leOptNat (cntL cs x) (maxCntL cs p))
    (hminq : minLenP q ≤ x.length) (hmaxq : leOptNat x.length (maxLenP q))
    (hcntq : ∀ cs, minCntL cs q ≤ cntL cs x ∧ leOptNat (cntL cs x) (maxCntL cs q)) :
    False := by
  unfold patsSeparated at hsep
  rcases Bool.or_eq_true_iff.mp hsep with h | h
  · rcases Bool.or_eq_true_iff.mp h with h1 | h1
    · cases hm : maxLenP p with
      | none =>
        rw [hm] at h1
        exact absurd h1 (by simp [ltOpt])
      | some m =>
        rw [hm] at h1 hmaxp
        have h2 : m < minLenP q := by simpa [ltOpt] using h1
        have h3 : x.length ≤ m := hmaxp
        omega
    · cases hm : maxLenP q with
      | none =>
        rw [hm] at h1
        exact absurd h1 (by simp [ltOpt])
      | some m =>
        rw [hm] at h1 hmaxq
        have h2 : m < minLenP p := by simpa [ltOpt] using h1
        have h3 : x.length ≤ m := hmaxq
        omega
  · obtain ⟨cs, hcs, h2⟩ := List.any_eq_true.mp h
    unfold sepByClass at h2
    rcases Bool.or_eq_true_iff.mp h2 with h1 | h1
    · cases hm : maxCntL cs p with
      | none =>
        rw [hm] at h1
        exact absurd h1 (by simp [ltOpt])
      | some m =>
        have hp2 := (hcntp cs).2
        rw [hm] at h1 hp2
        have h3 : m < minCntL cs q := by simpa [ltOpt] using h1
        have h4 := (hcntq cs).1
        have h5 : cntL cs x ≤ m := hp2
        omega
    · cases hm : maxCntL cs q with
      | none =>
        rw [hm] at h1
        exact absurd h1 (by simp [ltOpt])
      | some m =>
        have hp2 := (hcntq cs).2
        rw [hm] at h1 hp2
        have h3 : m < minCntL cs p := by simpa [ltOpt] using h1
        have h4 := (hcntp cs).1
        have h5 : cntL cs x ≤ m := hp2
        omega

theorem token_not_mhh (t : String) (p : Pat) (hp : p ∈ tokenizerAlts)
    (prev2 lastc : Option Char) (rem : List Char)
    (hr : (lastc, rem) ∈ matchP p prev2 (t.data ++ rem)) :
    mhhSearch t = none
      ∧ ∀ q ∈ marbleHillStreetRegexes, wholeStringMatchesPattern t q = false := by
  obtain ⟨u0, hdecomp, hminp, hmaxp, hcntp⟩ :=
    matchP_bounds p prev2 (t.data ++ rem) (lastc, rem) hr
  have hlen : t.data.length = u0.length := by
    have := congrArg List.length hdecomp
    simp only [List.length_append] at this
    omega
  have hu0 : t.data = u0 := (List.append_inj hdecomp hlen).1
  rw [← hu0] at hminp hmaxp hcntp
  constructor
  · show mhhSearchAux t.data = none
    apply mhhSearchAux_eq_none
    intro s2 hs2
    apply List.eq_nil_iff_forall_not_mem.mpr
    intro r hrm
    obtain ⟨w, hw, hminw, hmaxw, hcntw⟩ := matchP_bounds mhhCorePat none s2 r hrm
    obtain ⟨pre, hpre⟩ := hs2
    have hfull : t.data = pre ++ w ++ r.2 := by
      rw [← hpre, hw, List.append_assoc]
    have hcc : cannotContain p mhhCorePat = true :=
      List.all_eq_true.mp tokenizerAlts_no_mhh p hp
    exact cannotContain_absurd p mhhCorePat hcc t.data w pre r.2 hfull hmaxp
      (fun cs => (hcntp cs).2) hminw (fun cs => (hcntw cs).1)
  · intro q hq
    by_cases hw : wholeStringMatchesPattern t q = true
    · exfalso
      unfold wholeStringMatchesPattern at hw
      obtain ⟨r, hrm, hre⟩ := List.any_eq_true.mp hw
      have hre2 : r.2 = [] := List.isEmpty_iff.mp hre
      obtain ⟨w, hwdec, hminw, hmaxw, hcntw⟩ := matchP_bounds q none t.data r hrm
      rw [hre2, List.append_nil] at hwdec
      rw [← hwdec] at hminw hmaxw hcntw
      have hsep : patsSeparated p q = true :=
        List.all_eq_true.mp (List.all_eq_true.mp tokenizerAlts_sep_mh p hp) q hq
      exact patsSeparated_absurd p q hsep t.data hminp hmaxp hcntp hminw hmaxw hcntw
    · exact Bool.eq_false_iff.mpr hw

theorem tokenize_nonempty (input : String) (t : String) (ht : t ∈ tokenize input) :
    t ≠ "" := by
  obtain ⟨p, hp, prev2, lastc, rem, hr⟩ := tokenize_token_spec input t ht
  obtain ⟨u0, hdecomp, hmin, hrest⟩ := matchP_bounds p prev2 (t.data ++ rem) (lastc, rem) hr
  have hlen : t.data.length = u0.length := by
    have := congrArg List.length hdecomp
    simp only [List.length_append] at this
    omega
  have h1 : 1 ≤ minLenP p :=
    of_decide_eq_true (List.all_eq_true.mp tokenizerAlts_min_len p hp)
  intro hemp
  rw [hemp] at hlen
  have h0 : ("" : String).data.length = 0 := rfl
  omega

theorem tokenize_token_not_mhh (input : String) (t : String) (ht : t ∈ tokenize input) :
    mhhSearch t = none
      ∧ ∀ q ∈ marbleHillStreetRegexes, wholeStringMatchesPattern t q = false := by
  obtain ⟨p, hp, prev2, lastc, rem, hr⟩ := tokenize_token_spec input t ht
  exact token_not_mhh t p hp prev2 lastc rem hr

theorem parse_out_eq (input : String) :
    parseNycAddress input =
      { housenumber := if housenumberTokenCount (tokenize input) > 0 ∧ hnTextOf input ≠ ""
          then some (hnTextOf input) else none,
        street := if streetTextOf input ≠ "" then some (streetTextOf input) else none,
        borough := if (mhOf input).1 < 6 then some (mhOf input).1 else none,
        postcode := if postcodeOf input ≠ "" then some (postcodeOf input) else none,
        marble_hill := (mhOf input).2 } := by
  simp only [parseNycAddress, mhOf, streetTextOf, hnTextOf, finalCountOf, parseBoro,
    postcodeOf, resolvedTokens, resolvedState]

theorem joinSpace_foldl_len : ∀ (rest : List String) (acc : String),
    acc.length ≤ (rest.foldl (fun a t => a ++ " " ++ t) acc).length := by
  intro rest
  induction rest with
  | nil => intro acc; exact Nat.le_refl _
  | cons b bs ih =>
    intro acc
    refine le_trans ?_ (ih (acc ++ " " ++ b))
    simp [String.length_append]
    omega

theorem joinSpace_ne_empty (a : String) (rest : List String) (ha : a ≠ "") :
    joinSpace (a :: rest) ≠ "" := by
  intro h
  have h1 : a.length ≤ (joinSpace (a :: rest)).length := joinSpace_foldl_len rest a
  rw [h] at h1
  have h2 : a.length = 0 := by
    have : ("" : String).length = 0 := rfl
    omega
  apply ha
  cases a with
  | mk ad =>
    have h3 : ad.length = 0 := h2
    have h4 : ad = [] := List.length_eq_zero.mp h3
    rw [h4]

theorem resolveLoop_single (c : Nat) (st : ResolveState) (h : st.tokens.length ≤ c + 1) :
    resolveLoop c st = st := by
  unfold resolveLoop
  cases hl : st.tokens.length with
  | zero => rfl
  | succ m =>
    simp only [resolveLoopFuel]
    rw [if_neg (by omega)]

theorem resolveBoroFallback_pos (st : ResolveState) (hb : 1 ≤ st.boro) (hz : 1 ≤ st.zipBoro) :
    1 ≤ resolveBoroFallback st := by
  unfold resolveBoroFallback
  split
  · split
    · exact hz
    · split
      · omega
      · exact hb
  · exact hb

theorem parseBoro_pos (input : String) : 1 ≤ parseBoro input := by
  have h := resolveLoop_boro_range (housenumberTokenCount (tokenize input))
    (initState (tokenize input)) (by show (1 : Nat) ≤ 9; decide) (by show (1 : Nat) ≤ 9; decide)
  exact resolveBoroFallback_pos (resolvedState input) h.1 h.2

theorem marbleHillCheck_cases (s : String) (tokens : List String) (count boro : Nat)
    (postcode : String) :
    marbleHillCheck s tokens count boro postcode = (1, true)
      ∨ marbleHillCheck s tokens count boro postcode = (2, false)
      ∨ marbleHillCheck s tokens count boro postcode = (boro, false) := by
  unfold marbleHillCheck
  by_cases hg : (postcode = "" ∨ "10463".data.isPrefixOf postcode.data = true)
      ∧ boro ∉ [3, 4, 5]
  · rw [if_pos hg]
    have hshape : ∀ r : Nat × Bool, (r = (2, false) ∨ r.1 = boro) →
        (if r.2 then ((1 : Nat), true) else r) = (1, true)
          ∨ (if r.2 then ((1 : Nat), true) else r) = (2, false)
          ∨ (if r.2 then ((1 : Nat), true) else r) = (boro, false) := by
      intro r hr
      by_cases h2 : r.2 = true
      · rw [if_pos h2]
        exact Or.inl rfl
      · rw [if_neg h2]
        rcases hr with h | h
        · exact Or.inr (Or.inl h)
        · refine Or.inr (Or.inr ?_)
          exact Prod.ext_iff.mpr ⟨h, Bool.eq_false_iff.mpr h2⟩
    apply hshape
    dsimp only
    split
    · split
      · split
        · exact Or.inl rfl
        · exact Or.inr rfl
      · exact Or.inr rfl
    · split
      · exact Or.inr rfl
      · split
        · split
          · exact Or.inr rfl
          · exact Or.inr rfl
        · exact Or.inr rfl
  · rw [if_neg hg]
    exact Or.inr (Or.inr rfl)

theorem marbleHillCheck_street_none (s : String) (tokens : List String) (count boro : Nat)
    (postcode : String)
    (hs1 : mhhSearch s = none)
    (hs2 : ∀ q ∈ marbleHillStreetRegexes, wholeStringMatchesPattern s q = false)
    (hcb : count = 0 ∨ (s ≠ "BROADWAY" ∧ wholeStringMatchesPattern s w225Pat = false)) :
    marbleHillCheck s tokens count boro postcode = (boro, false) := by
  unfold marbleHillCheck
  by_cases hg : (postcode = "" ∨ "10463".data.isPrefixOf postcode.data = true)
      ∧ boro ∉ [3, 4, 5]
  · rw [if_pos hg]
    have hany : (marbleHillStreetRegexes.any fun p => wholeStringMatchesPattern s p)
        = false := by
      cases hA : (marbleHillStreetRegexes.any fun p => wholeStringMatchesPattern s p) with
      | false => rfl
      | true =>
        exfalso
        obtain ⟨q, hq, hqt⟩ := List.any_eq_true.mp hA
        rw [hs2 q hq] at hqt
        exact absurd hqt (by decide)
    rcases hcb with h0 | ⟨hs3, hs4⟩
    · simp [hs1, hany, h0]
    · simp [hs1, hany, hs3, hs4]
  · rw [if_neg hg]

/-- C1: for every input, the borough key, when present, holds a value in
    1..5 (the sentinels 6, 7 and 9 never surface), and the marble hill flag
    is set only when the borough key is present with value 1. -/
theorem c1_borough_valid (input : String) :
    (∀ b, (parseNycAddress input).borough = some b → 1 ≤ b ∧ b ≤ 5)
    ∧ ((parseNycAddress input).marble_hill = true →
        (parseNycAddress input).borough = some 1) := by
  have hmc : mhOf input = (1, true) ∨ mhOf input = (2, false)
      ∨ mhOf input = (parseBoro input, false) :=
    marbleHillCheck_cases (streetTextOf input) (resolvedTokens input) (finalCountOf input)
      (parseBoro input) (postcodeOf input)
  have hb := parseBoro_pos input
  rw [parse_out_eq input]
  rcases hmc with h | h | h
  · rw [h]
    refine ⟨?_, ?_⟩
    · intro b hbb
      simp at hbb
      omega
    · intro _
      simp
  · rw [h]
    refine ⟨?_, ?_⟩
    · intro b hbb
      simp at hbb
      omega
    · intro hmh
      simp at hmh
  · rw [h]
    refine ⟨?_, ?_⟩
    · intro b hbb
      simp at hbb
      obtain ⟨h6, hbe⟩ := hbb
      omega
    · intro hmh
      simp at hmh

/-- Witness for C1: on the Marble Hill test address the flag is set and the
    borough key is 1. -/
theorem c1_borough_valid_witness :
    (parseNycAddress "2 Jacobus Pl., Bronx, New York").borough = some 1 :=
  (c1_borough_valid "2 Jacobus Pl., Bronx, New York").2 (by decide)

/-- C2: the Broadway check of the code contains the empty range 5401 to
    5321, so housenumber 5401 on BROADWAY never sets the marble hill flag
    even with the borough resolved to Manhattan, while 5400 and 5485 do;
    the spec instead includes 5401 to 5420 when the borough is 1 or 2. -/
theorem c2_broadway_dead_range :
    (parseNycAddress "5401 BROADWAY MANHATTAN").borough = some 1
    ∧ (parseNycAddress "5401 BROADWAY MANHATTAN").marble_hill = false
    ∧ (parseNycAddress "5420 BROADWAY MANHATTAN").marble_hill = false
    ∧ (parseNycAddress "5400 BROADWAY MANHATTAN").marble_hill = true
    ∧ (parseNycAddress "5485 BROADWAY").marble_hill = true := by
  decide

/-- C3 (amended with the positive-count guard of the code): when a
    housenumber was counted, the ambiguous first street token is moved into
    the housenumber exactly when more than one street token remains and the
    following token is not a literal street type. -/
theorem c3_ambiguous_resolution (tokens : List String) (count : Nat) (hpos : 0 < count) :
    (tokens.length - count > 1
        ∧ tokens.getD count "" ∈ ambiguousTokens
        ∧ tokens.getD (count + 1) "" ∉ streetTypeTokens →
      finalHousenumberTokenCount tokens count = count + 1)
    ∧ (¬ (tokens.length - count > 1
          ∧ tokens.getD count "" ∈ ambiguousTokens
          ∧ tokens.getD (count + 1) "" ∉ streetTypeTokens) →
      finalHousenumberTokenCount tokens count = count) := by
  unfold finalHousenumberTokenCount
  rw [if_pos hpos]
  constructor
  · rintro ⟨h1, h2, h3⟩
    have h2b : ambiguousTokens.contains (tokens.getD count "") = true := by simpa using h2
    have h3b : streetTypeTokens.contains (tokens.getD (count + 1) "") = false := by
      cases hc : streetTypeTokens.contains (tokens.getD (count + 1) "") with
      | false => rfl
      | true => exact absurd (by simpa using hc) h3
    have hcond : (decide (tokens.length - count > 1)
        && ambiguousTokens.contains (tokens.getD count "")
        && !streetTypeTokens.contains (tokens.getD (count + 1) "")) = true := by
      rw [decide_eq_true h1, h2b, h3b]
      rfl
    rw [if_pos hcond]
  · intro hn
    by_cases hc : (decide (tokens.length - count > 1)
        && ambiguousTokens.contains (tokens.getD count "")
        && !streetTypeTokens.contains (tokens.getD (count + 1) "")) = true
    · exfalso
      apply hn
      have h12 := Bool.and_eq_true_iff.mp hc
      have h11 := Bool.and_eq_true_iff.mp h12.1
      refine ⟨of_decide_eq_true h11.1, by simpa using h11.2, ?_⟩
      intro hmem
      have hmb : streetTypeTokens.contains (tokens.getD (count + 1) "") = true := by
        simpa using hmem
      rw [hmb] at h12
      exact absurd h12.2 (by decide)
    · rw [if_neg hc]

/-- Witness for C3: with count 1 on 123 A QUEENS the ambiguous token A is
    absorbed. -/
theorem c3_ambiguous_resolution_witness :
    finalHousenumberTokenCount ["123", "A", "QUEENS"] 1 = 1 + 1 :=
  (c3_ambiguous_resolution ["123", "A", "QUEENS"] 1 (by decide)).1
    ⟨by decide, by decide, by decide⟩

/-- Counterexample to C3 as stated: with count 0 (reachable from the input
    A B) all stated conditions for the increment hold, yet the code leaves
    the count unchanged because of its positive-count guard. -/
theorem c3_counterexample :
    (["A", "B"] : List String).length - 0 > 1
      ∧ (["A", "B"] : List String).getD 0 "" ∈ ambiguousTokens
      ∧ (["A", "B"] : List String).getD (0 + 1) "" ∉ streetTypeTokens
      ∧ finalHousenumberTokenCount ["A", "B"] 0 ≠ 0 + 1 := by
  decide

/-- C5: when the Marble Hill override guard holds and the Marble Hill
    Houses regex finds a match in the street text, a captured building
    number among 4, 5, 6, 11 forces borough 2 without the flag, and any
    other outcome sets the flag with borough 1. -/
theorem c5_marble_hill_houses (input : String) (g3 : Option String)
    (hguard : (postcodeOf input = "" ∨ "10463".data.isPrefixOf (postcodeOf input).data = true)
      ∧ parseBoro input ∉ [3, 4, 5])
    (hsearch : mhhSearch (streetTextOf input) = some g3) :
    ((∃ d, g3 = some d ∧ d ∈ bronxBuildings) →
        (parseNycAddress input).borough = some 2
          ∧ (parseNycAddress input).marble_hill = false)
    ∧ ((∀ d, g3 = some d → d ∉ bronxBuildings) →
        (parseNycAddress input).borough = some 1
          ∧ (parseNycAddress input).marble_hill = true) := by
  have hm : mhOf input = marbleHillCheck (streetTextOf input) (resolvedTokens input)
      (finalCountOf input) (parseBoro input) (postcodeOf input) := rfl
  unfold marbleHillCheck at hm
  rw [if_pos hguard] at hm
  rcases g3 with _ | d
  · simp only [hsearch] at hm
    simp at hm
    constructor
    · rintro ⟨d, hd, _⟩
      exact absurd hd (by simp)
    · intro _
      rw [parse_out_eq input, hm]
      exact ⟨by simp, by simp⟩
  · by_cases hd : d ∈ bronxBuildings
    · simp only [hsearch] at hm
      rw [if_pos hd] at hm
      simp at hm
      constructor
      · intro _
        rw [parse_out_eq input, hm]
        exact ⟨by simp, by simp⟩
      · intro hall
        exact absurd hd (hall d rfl)
    · simp only [hsearch] at hm
      rw [if_neg hd] at hm
      simp at hm
      constructor
      · rintro ⟨d2, hd2, hmem⟩
        have hdd : d = d2 := Option.some.inj hd2
        rw [← hdd] at hmem
        exact absurd hmem hd
      · intro _
        rw [parse_out_eq input, hm]
        exact ⟨by simp, by simp⟩

/-- Witness for C5: building 11 of the Marble Hill Houses gets borough 2,
    no flag, and the whole phrase remains the street. -/
theorem c5_marble_hill_houses_witness :
    (parseNycAddress "marble hill houses bldg 11").street
        = some "MARBLE HILL HOUSES BLDG 11"
      ∧ (parseNycAddress "marble hill houses bldg 11").borough = some 2
      ∧ (parseNycAddress "marble hill houses bldg 11").marble_hill = false :=
  ⟨by decide,
   ((c5_marble_hill_houses "marble hill houses bldg 11" (some "11") (by decide)
       (by decide)).1 ⟨"11", rfl, by decide⟩).1,
   ((c5_marble_hill_houses "marble hill houses bldg 11" (some "11") (by decide)
       (by decide)).1 ⟨"11", rfl, by decide⟩).2⟩

/-- C6: the housenumber classifier returns 0 when the first token does not
    begin with a digit, and otherwise a count c with 1 ≤ c ≤ n such that
    every absorbed position qualifies (housenumber token, or ambiguous token
    whose successor is in the union list) and the first position past c is
    the end of the tokens or fails to qualify. -/
theorem c6_classifier (tokens : List String) :
    (firstCharIsDigit (tokens.getD 0 "") = false → housenumberTokenCount tokens = 0)
    ∧ (firstCharIsDigit (tokens.getD 0 "") = true →
        1 ≤ housenumberTokenCount tokens
        ∧ housenumberTokenCount tokens ≤ tokens.length
        ∧ (∀ i, 1 + i < housenumberTokenCount tokens → hnQual tokens i)
        ∧ (housenumberTokenCount tokens = tokens.length
            ∨ ¬ hnQual tokens (housenumberTokenCount tokens - 1))) := by
  constructor
  · intro hd
    unfold housenumberTokenCount
    rw [hd]
    simp
  · intro hd
    unfold housenumberTokenCount
    rw [if_pos hd]
    have hne : tokens ≠ [] := by
      intro h0
      rw [h0] at hd
      exact absurd hd (by decide)
    have hlen : 1 ≤ tokens.length := by
      cases tokens with
      | nil => exact absurd rfl hne
      | cons a l => simp
    unfold hnCountLoop
    obtain ⟨hs1, hs2, hs3, hs4⟩ := hnLoopFuel_spec (tokens.length - 1) tokens 1 (by omega) hlen
    refine ⟨hs1, hs2, ?_, ?_⟩
    · intro i hi
      unfold hnQual
      rw [show 2 + i = 1 + i + 1 from by omega]
      exact hs3 (1 + i) (by omega) hi
    · rcases hs4 with h | h
      · exact Or.inl h
      · right
        unfold hnQual
        intro hq
        rw [show 1 + (hnLoopFuel tokens (tokens.length - 1) 1 - 1)
              = hnLoopFuel tokens (tokens.length - 1) 1 from by omega,
            show 2 + (hnLoopFuel tokens (tokens.length - 1) 1 - 1)
              = hnLoopFuel tokens (tokens.length - 1) 1 + 1 from by omega] at hq
        rw [h] at hq
        exact absurd hq (by decide)

/-- Witness for C6: on 655 FRONT A (ST ANNS AVENUE as one token) the count
    is within bounds, every absorbed position qualifies and the boundary
    position fails. -/
theorem c6_classifier_witness :
    1 ≤ housenumberTokenCount ["655", "FRONT", "A", "ST ANNS AVENUE"]
    ∧ housenumberTokenCount ["655", "FRONT", "A", "ST ANNS AVENUE"]
        ≤ (["655", "FRONT", "A", "ST ANNS AVENUE"] : List String).length
    ∧ (∀ i, 1 + i < housenumberTokenCount ["655", "FRONT", "A", "ST ANNS AVENUE"] →
        hnQual ["655", "FRONT", "A", "ST ANNS AVENUE"] i)
    ∧ (housenumberTokenCount ["655", "FRONT", "A", "ST ANNS AVENUE"]
          = (["655", "FRONT", "A", "ST ANNS AVENUE"] : List String).length
        ∨ ¬ hnQual ["655", "FRONT", "A", "ST ANNS AVENUE"]
            (housenumberTokenCount ["655", "FRONT", "A", "ST ANNS AVENUE"] - 1)) :=
  (c6_classifier ["655", "FRONT", "A", "ST ANNS AVENUE"]).2 (by decide)

/-- C8: when at least one token lies beyond the housenumber count, the
    backwards resolver always leaves strictly more tokens than the count. -/
theorem c8_resolver_leaves_street (input : String)
    (h : housenumberTokenCount (tokenize input) < (tokenize input).length) :
    housenumberTokenCount (tokenize input) < (resolvedTokens input).length := by
  have hm : min (tokenize input).length (housenumberTokenCount (tokenize input) + 1)
      ≤ (resolvedTokens input).length :=
    resolveLoop_length (housenumberTokenCount (tokenize input))
      (initState (tokenize input))
  omega

/-- Witness for C8: with count 1 of 123 BROADWAY MANHATTAN, two tokens
    survive the resolver. -/
theorem c8_resolver_leaves_street_witness :
    housenumberTokenCount (tokenize "123 BROADWAY MANHATTAN")
      < (resolvedTokens "123 BROADWAY MANHATTAN").length :=
  c8_resolver_leaves_street "123 BROADWAY MANHATTAN" (by decide)

/-- C9: the parser is a total function; the empty string yields the empty
    record, and when no housenumber is counted the whole surviving token
    list is returned as the street (never an error), with no housenumber
    key. -/
theorem c9_graceful (input : String) :
    parseNycAddress "" = {}
    ∧ (housenumberTokenCount (tokenize input) = 0 →
        (parseNycAddress input).housenumber = none)
    ∧ (housenumberTokenCount (tokenize input) = 0 → resolvedTokens input ≠ [] →
        (parseNycAddress input).street = some (joinSpace (resolvedTokens input))) := by
  refine ⟨by decide, ?_, ?_⟩
  · intro h0
    rw [parse_out_eq input]
    simp [h0]
  · intro h0 hne
    rw [parse_out_eq input]
    have hfc : finalCountOf input = 0 := by
      unfold finalCountOf
      rw [h0]
      rfl
    have hstreet : streetTextOf input = joinSpace (resolvedTokens input) := by
      unfold streetTextOf
      rw [hfc]
      rfl
    obtain ⟨a, rest, hR⟩ : ∃ a rest, resolvedTokens input = a :: rest := by
      cases hRc : resolvedTokens input with
      | nil => exact absurd hRc hne
      | cons a rest => exact ⟨a, rest, rfl⟩
    have hpre : resolvedTokens input <+: tokenize input :=
      resolveLoop_tokens_prefix (housenumberTokenCount (tokenize input))
        (initState (tokenize input))
    have ha : a ∈ tokenize input :=
      hpre.subset (by rw [hR]; exact List.mem_cons_self a rest)
    have hane : a ≠ "" := tokenize_nonempty input a ha
    have hjne : joinSpace (resolvedTokens input) ≠ "" := by
      rw [hR]
      exact joinSpace_ne_empty a rest hane
    rw [hstreet, if_pos hjne]

/-- Witness for C9: a digitless garbage input keeps all tokens as the
    street. -/
theorem c9_graceful_witness :
    (parseNycAddress "!@#$ garbage").street = some (joinSpace (resolvedTokens "!@#$ garbage")) :=
  (c9_graceful "!@#$ garbage").2.2 (by decide) (by decide)

/-- C10: an input whose tokenization is a single token gets no borough key,
    no postcode key and no marble hill flag, and the lone token is returned
    solely as the housenumber when it begins with a digit and solely as the
    street otherwise: the resolver leaves at least one street token alone
    and a single token can never trigger the Marble Hill checks. -/
theorem c10_single_token (input : String) (h1 : (tokenize input).length = 1) :
    (parseNycAddress input).borough = none
    ∧ (parseNycAddress input).postcode = none
    ∧ (parseNycAddress input).marble_hill = false
    ∧ (∀ t, tokenize input = [t] →
        (firstCharIsDigit t = true →
          (parseNycAddress input).housenumber = some t
          ∧ (parseNycAddress input).street = none)
        ∧ (firstCharIsDigit t = false →
          (parseNycAddress input).housenumber = none
          ∧ (parseNycAddress input).street = some t)) := by
  obtain ⟨t, ht⟩ := List.length_eq_one.mp h1
  have hcl : housenumberTokenCount (tokenize input) ≤ 1 := by
    have := housenumberTokenCount_le (tokenize input)
    omega
  have hsingle : resolveLoop (housenumberTokenCount (tokenize input))
      (initState (tokenize input)) = initState (tokenize input) :=
    resolveLoop_single _ _ (by show (tokenize input).length ≤ _ + 1; omega)
  have hstate : resolvedState input = initState (tokenize input) := hsingle
  have hR : resolvedTokens input = tokenize input := by
    unfold resolvedTokens
    rw [hsingle]
    rfl
  have hpc : postcodeOf input = "" := by
    unfold postcodeOf
    rw [hstate]
    rfl
  have hpb : parseBoro input = 9 := by
    unfold parseBoro
    rw [hstate]
    rfl
  have htm : t ∈ tokenize input := by
    rw [ht]
    exact List.mem_cons_self t []
  have htne : t ≠ "" := tokenize_nonempty input t htm
  obtain ⟨hs1, hs2⟩ := tokenize_token_not_mhh input t htm
  have hcount : housenumberTokenCount (tokenize input)
      = (if firstCharIsDigit t = true then 1 else 0) := by
    rw [ht]
    unfold housenumberTokenCount
    by_cases hd : firstCharIsDigit (([t] : List String).getD 0 "") = true
    · rw [if_pos hd]
      have hd2 : firstCharIsDigit t = true := hd
      rw [if_pos hd2]
      rfl
    · rw [if_neg hd]
      have hd2 : ¬ firstCharIsDigit t = true := hd
      rw [if_neg hd2]
  have htuniq : ∀ t2, tokenize input = [t2] → t2 = t := by
    intro t2 ht2
    rw [ht] at ht2
    exact ((List.cons.injEq t [] t2 []).mp ht2).1.symm
  by_cases hdig : firstCharIsDigit t = true
  · have hc1 : housenumberTokenCount (tokenize input) = 1 := by
      rw [hcount, if_pos hdig]
    have hfc : finalCountOf input = 1 := by
      unfold finalCountOf
      rw [hc1, hR, ht]
      rfl
    have hstreet : streetTextOf input = "" := by
      unfold streetTextOf
      rw [hfc, hR, ht]
      rfl
    have hhn : hnTextOf input = t := by
      unfold hnTextOf
      rw [hfc, hR, ht]
      rfl
    have hmh : mhOf input = (9, false) := by
      unfold mhOf
      rw [hstreet, hfc, hpb, hpc]
      exact marbleHillCheck_street_none "" (resolvedTokens input) 1 9 ""
        (by decide) (by decide) (Or.inr ⟨by decide, by decide⟩)
    rw [parse_out_eq input]
    refine ⟨by simp [hmh], by simp [hpc], by simp [hmh], ?_⟩
    intro t2 ht2
    rw [htuniq t2 ht2]
    constructor
    · intro _
      constructor
      · rw [hc1, hhn, if_pos ⟨by omega, htne⟩]
      · rw [hstreet]
        simp
    · intro hdf
      rw [hdig] at hdf
      exact absurd hdf (by decide)
  · have hdigf : firstCharIsDigit t = false := Bool.eq_false_iff.mpr hdig
    have hc0 : housenumberTokenCount (tokenize input) = 0 := by
      rw [hcount, if_neg hdig]
    have hfc : finalCountOf input = 0 := by
      unfold finalCountOf
      rw [hc0]
      rfl
    have hstreet : streetTextOf input = t := by
      unfold streetTextOf
      rw [hfc, hR, ht]
      rfl
    have hmh : mhOf input = (9, false) := by
      unfold mhOf
      rw [hstreet, hfc, hpb, hpc]
      exact marbleHillCheck_street_none t (resolvedTokens input) 0 9 ""
        hs1 hs2 (Or.inl rfl)
    rw [parse_out_eq input]
    refine ⟨by simp [hmh], by simp [hpc], by simp [hmh], ?_⟩
    intro t2 ht2
    rw [htuniq t2 ht2]
    constructor
    · intro hdt
      rw [hdigf] at hdt
      exact absurd hdt (by decide)
    · intro _
      constructor
      · rw [hc0]
        simp
      · rw [hstreet, if_pos htne]

/-- Witness for C10: a lone zip-looking token is returned with no borough,
    postcode or marble hill key, and solely as the housenumber since it
    begins with a digit. -/
theorem c10_single_token_witness :
    (parseNycAddress "10001").borough = none
    ∧ (parseNycAddress "10001").postcode = none
    ∧ (parseNycAddress "10001").marble_hill = false
    ∧ (parseNycAddress "10001").housenumber = some "10001"
    ∧ (parseNycAddress "10001").street = none :=
  ⟨(c10_single_token "10001" (by decide)).1,
   (c10_single_token "10001" (by decide)).2.1,
   (c10_single_token "10001" (by decide)).2.2.1,
   ((c10_single_token "10001" (by decide)).2.2.2 "10001" (by decide)).1 (by decide)⟩
